import Mathlib

/-!
Verification of the SQL review / safe-execution core of the mcp-sql-server
repository, as a shallow embedding in Lean 4.

Sources embedded (paths relative to the repository root):
* `services/analysis/sql_analyzer.py` — `SqlAnalyzer.analyze`,
  `SqlAnalyzer.validate_readonly`, `_get_top_severity`,
  `_create_syntax_error_result`;
* `services/analysis/review_service.py` — `ReviewService.review`,
  `_add_execution_plan_findings`, `_add_metadata_findings`, `_finalize_review`;
* `services/core/execution_service.py` — `ExecutionService.execute_readonly`
  (gate chain), the inner `fetch_strategy`, `_apply_pagination`;
* `services/security/concurrency_throttler.py` — `ConcurrencyThrottler`;
* `services/security/nolock_injector.py` — `NolockInjector`;
* `services/security/resource_control_injector.py` — `ResourceControlInjector`;
* `services/infrastructure/db_connection_service.py` — circuit breaker.

Modelling conventions: SQL text that the Python code feeds to the external
`sqlglot` parser is represented by parse *results* (an abstract statement
type mirroring the attributes the code actually reads).  External I/O
(database rows, plan XML, the plan-analyzer and metadata-analyzer string
lists) enters the model as explicit oracle inputs.  Python `int` counters
that can meaningfully go negative are `Int`; quantities the code treats as
sizes/counts are `Nat`.  Python strings are Lean `String`s; `str.upper`,
`str.strip`, `str.rstrip(';')` and the one regular expression the code uses
are implemented character-faithfully (ASCII) below.
-/

namespace McpSql

/-! ### Python string primitives -/

/-- Python whitespace (`\s`, `str.strip`) restricted to ASCII. -/
def pyIsWs (c : Char) : Bool :=
  c = ' ' || c = '\t' || c = '\n' || c = '\r' || c = '\x0b' || c = '\x0c'

/-- Python `\w` word characters (ASCII). -/
def isWordChar (c : Char) : Bool :=
  c.isAlpha || c.isDigit || c = '_'

/-- ASCII upper-casing of one character, as Python `str.upper` does on
ASCII input. -/
def pyUpperChar : Char → Char
  | 'a' => 'A' | 'b' => 'B' | 'c' => 'C' | 'd' => 'D' | 'e' => 'E'
  | 'f' => 'F' | 'g' => 'G' | 'h' => 'H' | 'i' => 'I' | 'j' => 'J'
  | 'k' => 'K' | 'l' => 'L' | 'm' => 'M' | 'n' => 'N' | 'o' => 'O'
  | 'p' => 'P' | 'q' => 'Q' | 'r' => 'R' | 's' => 'S' | 't' => 'T'
  | 'u' => 'U' | 'v' => 'V' | 'w' => 'W' | 'x' => 'X' | 'y' => 'Y'
  | 'z' => 'Z'
  | c => c

/-- Python `str.upper` (ASCII). -/
def pyUpper (s : String) : String := String.mk (s.data.map pyUpperChar)

/-- Drop trailing characters satisfying `p` from a list. -/
def dropTrail (p : Char → Bool) (l : List Char) : List Char :=
  (l.reverse.dropWhile p).reverse

/-- Python `str.strip()` (whitespace at both ends). -/
def pyStrip (s : String) : String :=
  String.mk (dropTrail pyIsWs (s.data.dropWhile pyIsWs))

/-- Python `str.rstrip(';')`. -/
def pyRstripSemi (s : String) : String :=
  String.mk (dropTrail (· = ';') s.data)

/-- `startsList n l` — `l` starts with `n`. -/
def startsList : List Char → List Char → Bool
  | [], _ => true
  | _ :: _, [] => false
  | a :: as, b :: bs => a = b && startsList as bs

/-- `hasSub n l` — `n` occurs as a contiguous segment of `l`
(Python `n in l`). -/
def hasSub (n : List Char) : List Char → Bool
  | [] => startsList n []
  | l@(_ :: t) => startsList n l || hasSub n t

/-- Python `needle in hay` on strings. -/
def strContains (hay needle : String) : Bool := hasSub needle.data hay.data

/-- Split a character list at the first occurrence of `sep`
(Python `s.split(sep, 1)` when `sep` occurs). -/
def breakAtChar (sep : Char) : List Char → Option (List Char × List Char)
  | [] => none
  | c :: t =>
    if c = sep then some ([], t)
    else (breakAtChar sep t).map (fun p => (c :: p.1, p.2))

/-- Python `v.split(":", 1)` preceded by the `":" in v` test: the part
before the first `:` and the part after it, when a `:` exists. -/
def splitFirstColon (v : String) : Option (String × String) :=
  (breakAtChar ':' v.data).map (fun p => (String.mk p.1, String.mk p.2))

/-- Python `s.split(sep)` for a one-character separator. -/
def splitOnChar (sep : Char) : List Char → List (List Char)
  | [] => [[]]
  | c :: t =>
    match splitOnChar sep t with
    | [] => [[]]
    | h :: r => if c = sep then [] :: h :: r else (c :: h) :: r

/-- `startsList` on strings (Python `str.startswith`). -/
def strStartsWith (s pre : String) : Bool := startsList pre.data s.data

/-! ### Data model (`services/analysis/models.py`) -/

/-- A single review finding (`models.Finding`).  Severity and category are
kept as strings, exactly as the Python code compares them. -/
structure Finding where
  code : String
  severity : String
  category : String
  title : String
  description : String
  recommendation : String
  snippet : Option String := none
deriving DecidableEq, Repr

/-- `models.ReviewSummary`. -/
structure ReviewSummary where
  status : String
  riskScore : Nat
  verdict : String
  topSeverity : String
deriving DecidableEq, Repr

/-- `models.SafetyChecks`. -/
structure SafetyChecks where
  isReadonly : Bool
  hasWriteOps : Bool
  hasDdl : Bool
deriving DecidableEq, Repr

/-- `models.PerformanceInsights` (the float `estimated_cost` is external
to the model and omitted; no claim concerns it). -/
structure PerformanceInsights where
  executionPlanAvailable : Bool
deriving DecidableEq, Repr

/-- `models.ReviewResult`.  `schema_context` (a set of referenced object
names built with Python-set iteration order) is omitted: no claim under
verification mentions it. -/
structure ReviewResult where
  summary : ReviewSummary
  safetyChecks : SafetyChecks
  issues : List Finding
  performanceInsights : PerformanceInsights
deriving DecidableEq, Repr

/-! ### Parsed statements (abstraction of `sqlglot` parse results)

`SqlAnalyzer` reads these attributes of each parsed statement: its class
(`exp.Delete`/`Update`/`Insert`/`Merge`, DDL classes, `exp.Command`,
`exp.Select`), its `key` string, presence of a `WHERE` subtree, presence of
an `INTO` subtree, linked-server markers (`OPENQUERY`-style text patterns
and four-part table names), `CROSS` joins, and the best-practice rule
engine output (a list of strings, deduplicated per statement by
`list(set(...))` in `BestPracticesEngine.check_rules`). -/

inductive StmtTag
  | select | insert | update | delete | merge
  | create | alter | drop | command | other
deriving DecidableEq, Repr

/-- One parsed top-level statement. -/
structure Stmt where
  tag : StmtTag
  /-- `expression.key` (e.g. `"delete"`), interpolated into finding text. -/
  key : String
  /-- `expression.sql()`, used for snippets. -/
  sqlText : String
  /-- `expression.find(exp.Where)` is truthy. -/
  hasWhere : Bool
  /-- `expression.find(exp.Into)` is truthy. -/
  hasInto : Bool
  /-- an `OPENQUERY`/`OPENDATASOURCE`/`OPENROWSET`/`FOUR_PART_NAME` token
  occurs in the upper-cased statement text. -/
  textHasLinkedPattern : Bool
  /-- some referenced table carries a `catalog` part (four-part name). -/
  hasCatalogTable : Bool
  /-- `join.sql()` for each join with `kind == "CROSS"`, in subtree order. -/
  crossJoinSnippets : List String
  /-- `BestPracticesEngine.check_rules(expression)` output. -/
  bpViolations : List String
deriving DecidableEq, Repr

/-- A parse result: `sqlglot.parse` either raises or yields statements.
(`None` comment entries are dropped by `validate_readonly` before use and
are not modelled.) -/
abbrev ParseResult := Except String (List Stmt)

/-! ### Configuration (`config/configuration.py`) -/

/-- `RiskWeights` (the fields `SqlAnalyzer` reads). -/
structure RiskWeights where
  no_where_clause : Nat := 100
  cross_join : Nat := 80
  dynamic_sql : Nat := 90
  ddl_statement : Nat := 100
deriving DecidableEq, Repr

/-- The safety configuration fields the analyzer reads. -/
structure AnalyzerConfig where
  allow_linked_servers : Bool := false
  risk_weights : RiskWeights := {}
deriving DecidableEq, Repr

/-! ### `SqlAnalyzer.analyze` (`services/analysis/sql_analyzer.py`) -/

def isWriteTag (t : StmtTag) : Bool :=
  t = .delete || t = .update || t = .insert || t = .merge

def isDmlWhereTag (t : StmtTag) : Bool :=
  t = .delete || t = .update

def isDdlTag (t : StmtTag) : Bool :=
  t = .create || t = .drop || t = .alter

def sec001 (s : Stmt) : Finding :=
  { code := "SEC001", severity := "CRITICAL", category := "SECURITY"
    title := "Write Operation Detected"
    description := "The script contains a " ++ s.key ++ " statement which modifies data."
    recommendation := "Ensure this write operation is intended and authorized for the target environment."
    snippet := some (String.mk (s.sqlText.data.take 100) ++ "...") }

def sec002 (s : Stmt) : Finding :=
  { code := "SEC002", severity := "CRITICAL", category := "SECURITY"
    title := "Missing WHERE Clause in " ++ s.key
    description := "Executing " ++ s.key ++ " without a WHERE clause will affect ALL rows in the table."
    recommendation := "Add a WHERE clause to restrict the scope of the operation."
    snippet := some (String.mk (s.sqlText.data.take 100) ++ "...") }

def sec003 (s : Stmt) : Finding :=
  { code := "SEC003", severity := "HIGH", category := "SECURITY"
    title := "DDL Statement Detected"
    description := "The script contains a " ++ s.key ++ " statement which modifies the schema."
    recommendation := "DDL changes should be managed via migration tools, not ad-hoc scripts."
    snippet := some (String.mk (s.sqlText.data.take 100) ++ "...") }

def sec004 (s : Stmt) : Finding :=
  { code := "SEC004", severity := "HIGH", category := "SECURITY"
    title := "Dynamic SQL Execution"
    description := "Dynamic SQL (EXEC/EXECUTE) allows arbitrary code execution and is hard to analyze."
    recommendation := "Replace dynamic SQL with static SQL or parameterized queries where possible."
    snippet := some (String.mk (s.sqlText.data.take 100) ++ "...") }

def sec005 (s : Stmt) : Finding :=
  { code := "SEC005", severity := "CRITICAL", category := "SECURITY"
    title := "Linked Server Access Detected"
    description := "Query attempts to access linked servers, which is disabled for security reasons."
    recommendation := "Linked server access is not allowed. Use direct database connections instead."
    snippet := some (String.mk (s.sqlText.data.take 100) ++ "...") }

def perf001 (snip : String) : Finding :=
  { code := "PERF001", severity := "MEDIUM", category := "PERFORMANCE"
    title := "Cross Join Detected"
    description := "Cross joins generate a Cartesian product of rows, which can be performance-intensive."
    recommendation := "Use an INNER JOIN with a specific ON condition instead."
    snippet := some (String.mk (snip.data.take 100) ++ "...") }

/-- Code/description extraction for one best-practice violation string
(`analyze`, the `bp_violations` loop body). -/
def bpCodeDescription (violation : String) : String × String :=
  match splitFirstColon violation with
  | some (before, after) =>
    if strStartsWith (pyStrip before) "BP" then (pyStrip before, pyStrip after)
    else ("BP000", violation)
  | none => ("BP000", violation)

def bpFinding (s : Stmt) (violation : String) : Finding :=
  let cd := bpCodeDescription violation
  { code := cd.1, severity := "LOW", category := "BEST_PRACTICE"
    title := "Best Practice Violation"
    description := cd.2
    recommendation := "Review the SQL Best Practices guide."
    snippet := some (String.mk (s.sqlText.data.take 50) ++ "...") }

/-- The statement has a linked-server marker
(`analyze`, linked-server detection block). -/
def hasLinkedServer (s : Stmt) : Bool :=
  s.textHasLinkedPattern || s.hasCatalogTable

/-- Risk-score contribution of one statement, following the loop body of
`analyze` in order. -/
def stmtRisk (cfg : AnalyzerConfig) (s : Stmt) : Nat :=
  (if isWriteTag s.tag then
    100 + (if isDmlWhereTag s.tag && !s.hasWhere then cfg.risk_weights.no_where_clause else 0)
   else 0)
  + (if isDdlTag s.tag then cfg.risk_weights.ddl_statement else 0)
  + (if s.tag = .command then cfg.risk_weights.dynamic_sql else 0)
  + (if !cfg.allow_linked_servers && hasLinkedServer s then 100 else 0)
  + s.crossJoinSnippets.length * cfg.risk_weights.cross_join
  + s.bpViolations.length * 5

/-- Findings emitted for one statement, in the order the loop body of
`analyze` appends them. -/
def stmtFindings (cfg : AnalyzerConfig) (s : Stmt) : List Finding :=
  (if isWriteTag s.tag then
    sec001 s :: (if isDmlWhereTag s.tag && !s.hasWhere then [sec002 s] else [])
   else [])
  ++ (if isDdlTag s.tag then [sec003 s] else [])
  ++ (if s.tag = .command then [sec004 s] else [])
  ++ (if !cfg.allow_linked_servers && hasLinkedServer s then [sec005 s] else [])
  ++ s.crossJoinSnippets.map perf001
  ++ s.bpViolations.map (bpFinding s)

/-- The statement loop of `analyze`: accumulates risk score, findings and
the write/DDL flags over the statement list. -/
def analyzeLoop (cfg : AnalyzerConfig) :
    List Stmt → Nat → List Finding → Bool → Bool → Nat × List Finding × Bool × Bool
  | [], risk, findings, w, d => (risk, findings, w, d)
  | s :: rest, risk, findings, w, d =>
    analyzeLoop cfg rest (risk + stmtRisk cfg s) (findings ++ stmtFindings cfg s)
      (w || isWriteTag s.tag) (d || isDdlTag s.tag)

/-- The severity priority map of `_get_top_severity`
(`priority.get(f.severity, 1)`). -/
def sevPriority (sv : String) : Nat :=
  if sv = "CRITICAL" then 4 else if sv = "HIGH" then 3
  else if sv = "MEDIUM" then 2 else if sv = "LOW" then 1 else 1

/-- One step of the maximum-severity scan in `_get_top_severity`. -/
def topStep (acc : Nat × String) (f : Finding) : Nat × String :=
  if sevPriority f.severity > acc.1 then (sevPriority f.severity, f.severity) else acc

/-- `SqlAnalyzer._get_top_severity`. -/
def getTopSeverity (findings : List Finding) : String :=
  (findings.foldl topStep (0, "LOW")).2

/-- `SqlAnalyzer._create_syntax_error_result`. -/
def syntaxErrorResult (errorMsg : String) : ReviewResult :=
  { summary :=
      { status := "REJECTED", riskScore := 100
        verdict := "Syntax Error prevented analysis."
        topSeverity := "CRITICAL" }
    safetyChecks := { isReadonly := false, hasWriteOps := false, hasDdl := false }
    issues := [{ code := "SYN001", severity := "CRITICAL", category := "MAINTAINABILITY"
                 title := "SQL Syntax Error", description := errorMsg
                 recommendation := "Fix the syntax error to allow further analysis." }]
    performanceInsights := { executionPlanAvailable := false } }

/-- Status thresholds at the end of `analyze`. -/
def statusOfRisk (risk : Nat) : String :=
  if risk ≥ 80 then "REJECTED" else if risk ≥ 30 then "WARNING" else "APPROVED"

def verdictOfStatus (status : String) : String :=
  if status = "REJECTED" then "Script poses critical risks and should NOT be executed."
  else if status = "WARNING" then "Script contains potential issues. Review findings before critical execution."
  else "Script is safe execute."

/-- `SqlAnalyzer.analyze`. -/
def analyze (cfg : AnalyzerConfig) (pr : ParseResult) : ReviewResult :=
  match pr with
  | .error e => syntaxErrorResult e
  | .ok stmts =>
    let acc := analyzeLoop cfg stmts 0 [] false false
    let riskScore := min acc.1 100
    let findings := acc.2.1
    let hasWriteOps := acc.2.2.1
    let hasDdl := acc.2.2.2
    let status := statusOfRisk riskScore
    { summary :=
        { status := status, riskScore := riskScore
          verdict := verdictOfStatus status
          topSeverity := getTopSeverity findings }
      safetyChecks :=
        { isReadonly := !(hasWriteOps || hasDdl)
          hasWriteOps := hasWriteOps, hasDdl := hasDdl }
      issues := findings
      performanceInsights := { executionPlanAvailable := false } }

/-! ### `SqlAnalyzer.validate_readonly` -/

/-- `SqlAnalyzer.validate_readonly`: requires a successful parse, exactly
one statement, a `SELECT`, and no `INTO` subtree.  Returns `(ok, reason)`. -/
def validate_readonly (pr : ParseResult) : Bool × String :=
  match pr with
  | .error e => (false, "Parsing error: " ++ e)
  | .ok parsed =>
    if parsed.isEmpty then (false, "Empty query.")
    else if parsed.length > 1 then
      (false, "Multi-statement batches are not allowed in read-only mode.")
    else
      match parsed with
      | [stmt] =>
        if stmt.tag ≠ .select then
          (false, "Only SELECT statements are allowed. Found: " ++ stmt.key)
        else if stmt.hasInto then
          (false, "SELECT INTO is not allowed (write operation).")
        else (true, "")
      | _ => (false, "")

/-! ### `ReviewService` (`services/analysis/review_service.py`) -/

/-- `_add_execution_plan_findings`: severity assignment for one plan
finding string. -/
def planSeverity (fstr : String) : String :=
  if strContains fstr "Scan" || strContains fstr "Lookup" then "HIGH" else "MEDIUM"

def planFinding (fstr : String) : Finding :=
  { code := "PLAN001", severity := planSeverity fstr, category := "PERFORMANCE"
    title := "Execution Plan Insight", description := fstr
    recommendation := "Optimize query based on plan warning (e.g., add missing index)." }

def metaFinding (fstr : String) : Finding :=
  { code := "META001", severity := "MEDIUM", category := "RELIABILITY"
    title := "Metadata Issue", description := fstr
    recommendation := "Check database schema and statistics." }

/-- `_add_execution_plan_findings`: `planStrs = none` models an unavailable
plan (failed retrieval, empty XML, or a raised exception — all of which add
no findings and leave `execution_plan_available` false). -/
def addPlanFindings (r : ReviewResult) (planStrs : Option (List String)) : ReviewResult :=
  match planStrs with
  | none => r
  | some strs =>
    { r with
      issues := r.issues ++ strs.map planFinding
      performanceInsights := { executionPlanAvailable := true } }

/-- `_add_metadata_findings`: `metaStrs = none` models a raised exception
(caught; no findings added). -/
def addMetaFindings (r : ReviewResult) (metaStrs : Option (List String)) : ReviewResult :=
  match metaStrs with
  | none => r
  | some strs => { r with issues := r.issues ++ strs.map metaFinding }

/-- The plan/metadata risk increment of `_finalize_review`. -/
def planMetaExtra (issues : List Finding) : Nat :=
  issues.foldl
    (fun acc i =>
      if strStartsWith i.code "PLAN" || strStartsWith i.code "META" then
        if i.severity = "HIGH" then acc + 15
        else if i.severity = "MEDIUM" then acc + 5
        else acc
      else acc) 0

/-- `ReviewService._finalize_review`. -/
def finalizeReview (r : ReviewResult) : ReviewResult :=
  let totalRisk := min 100 (r.summary.riskScore + planMetaExtra r.issues)
  let summary := { r.summary with riskScore := totalRisk }
  let summary :=
    if totalRisk ≥ 80 then
      { summary with status := "REJECTED", verdict := "Significant risks detected in plan/metadata." }
    else if totalRisk ≥ 30 then
      { summary with status := "WARNING", verdict := "Script contains potential issues." }
    else summary
  { r with summary := summary }

/-- `ReviewService.review`: AST analysis, early return on critical
rejection, then plan findings, metadata findings and finalization. -/
def review (cfg : AnalyzerConfig) (pr : ParseResult)
    (planStrs metaStrs : Option (List String)) : ReviewResult :=
  if (analyze cfg pr).summary.status = "REJECTED" &&
      (analyze cfg pr).summary.topSeverity = "CRITICAL" then
    analyze cfg pr
  else
    finalizeReview (addMetaFindings (addPlanFindings (analyze cfg pr) planStrs) metaStrs)

/-! ### Structural lemmas about `analyze` -/

/-- Closed form of the statement loop of `analyze`. -/
theorem analyzeLoop_spec (cfg : AnalyzerConfig) (l : List Stmt)
    (r0 : Nat) (f0 : List Finding) (w0 d0 : Bool) :
    analyzeLoop cfg l r0 f0 w0 d0 =
      (r0 + (l.map (stmtRisk cfg)).sum,
       f0 ++ l.flatMap (stmtFindings cfg),
       w0 || l.any (fun s => isWriteTag s.tag),
       d0 || l.any (fun s => isDdlTag s.tag)) := by
  induction l generalizing r0 f0 w0 d0 with
  | nil => simp [analyzeLoop]
  | cons s rest ih =>
    simp only [analyzeLoop, ih, List.map_cons, List.sum_cons, List.flatMap_cons,
      List.any_cons, List.append_assoc, Bool.or_assoc]
    congr 1
    omega

/-- Every `CRITICAL` finding emitted for a statement comes with a risk
contribution of at least 100 for that statement (`SEC001`, `SEC002` and
`SEC005` all accompany a `+100`). -/
theorem stmtFindings_critical (cfg : AnalyzerConfig) (s : Stmt) (f : Finding)
    (hf : f ∈ stmtFindings cfg s) (hc : f.severity = "CRITICAL") :
    100 ≤ stmtRisk cfg s := by
  unfold stmtFindings at hf
  unfold stmtRisk
  rcases List.mem_append.1 hf with h | hbp
  · rcases List.mem_append.1 h with h | hcj
    · rcases List.mem_append.1 h with h | h5
      · rcases List.mem_append.1 h with h | h4
        · rcases List.mem_append.1 h with h | h3
          · -- write-operation block: SEC001 / SEC002, guarded by `isWriteTag`
            by_cases hw : isWriteTag s.tag
            · simp [hw]
              omega
            · simp [hw] at h
          · -- DDL block: SEC003 has severity HIGH
            by_cases hd : isDdlTag s.tag
            · simp [hd] at h3
              subst h3
              simp [sec003] at hc
            · simp [hd] at h3
        · -- dynamic SQL block: SEC004 has severity HIGH
          by_cases hcmd : s.tag = .command
          · simp [hcmd] at h4
            subst h4
            simp [sec004] at hc
          · simp [hcmd] at h4
      · -- linked-server block: SEC005, guarded by the linked-server test
        by_cases hls : !cfg.allow_linked_servers && hasLinkedServer s
        · simp [hls]
          omega
        · simp [hls] at h5
    · -- cross-join findings are MEDIUM
      rcases List.mem_map.1 hcj with ⟨snip, _, rfl⟩
      simp [perf001] at hc
  · -- best-practice findings are LOW
    rcases List.mem_map.1 hbp with ⟨v, _, rfl⟩
    simp [bpFinding] at hc

/-- The result of the `_get_top_severity` scan is either the seed or the
severity of some scanned finding. -/
theorem foldl_topStep_mem (fs : List Finding) (acc : Nat × String) :
    (fs.foldl topStep acc).2 = acc.2 ∨ ∃ f ∈ fs, (fs.foldl topStep acc).2 = f.severity := by
  induction fs generalizing acc with
  | nil => exact Or.inl rfl
  | cons f rest ih =>
    rcases ih (topStep acc f) with h | ⟨g, hg, hgs⟩
    · by_cases hstep : sevPriority f.severity > acc.1
      · right
        exact ⟨f, List.mem_cons_self .., by simp only [List.foldl_cons]; rw [h]; simp [topStep, hstep]⟩
      · left
        simp only [List.foldl_cons]
        rw [h]
        simp [topStep, hstep]
    · exact Or.inr ⟨g, List.mem_cons_of_mem _ hg, by simpa using hgs⟩

/-- `_get_top_severity` reports `CRITICAL` only when some finding is
`CRITICAL`. -/
theorem getTopSeverity_critical (fs : List Finding)
    (h : getTopSeverity fs = "CRITICAL") : ∃ f ∈ fs, f.severity = "CRITICAL" := by
  rcases foldl_topStep_mem fs (0, "LOW") with hl | ⟨f, hf, hfs⟩
  · rw [getTopSeverity] at h
    rw [hl] at h
    simp at h
  · rw [getTopSeverity] at h
    rw [hfs] at h
    exact ⟨f, hf, h⟩

/-- If the analyzer reports top severity `CRITICAL`, its risk score is
exactly 100. -/
theorem analyze_critical_risk (cfg : AnalyzerConfig) (pr : ParseResult)
    (h : (analyze cfg pr).summary.topSeverity = "CRITICAL") :
    (analyze cfg pr).summary.riskScore = 100 := by
  cases pr with
  | error e => simp [analyze, syntaxErrorResult]
  | ok stmts =>
    simp only [analyze, analyzeLoop_spec, List.nil_append] at h ⊢
    obtain ⟨f, hf, hfc⟩ := getTopSeverity_critical _ h
    obtain ⟨s, hs, hfs⟩ := List.mem_flatMap.1 hf
    have h100 : 100 ≤ stmtRisk cfg s := stmtFindings_critical cfg s f hfs hfc
    have hsum : stmtRisk cfg s ≤ (stmts.map (stmtRisk cfg)).sum :=
      List.single_le_sum (fun x _ => Nat.zero_le x) _ (List.mem_map_of_mem _ hs)
    omega

/-- The analyzer's status is the threshold function of its risk score. -/
theorem analyze_status_eq (cfg : AnalyzerConfig) (pr : ParseResult) :
    (analyze cfg pr).summary.status = statusOfRisk (analyze cfg pr).summary.riskScore := by
  cases pr with
  | error e => simp [analyze, syntaxErrorResult, statusOfRisk]
  | ok stmts => simp [analyze]

/-- Plan findings do not change the summary. -/
theorem addPlanFindings_summary (r : ReviewResult) (p : Option (List String)) :
    (addPlanFindings r p).summary = r.summary := by
  cases p <;> rfl

/-- Metadata findings do not change the summary. -/
theorem addMetaFindings_summary (r : ReviewResult) (m : Option (List String)) :
    (addMetaFindings r m).summary = r.summary := by
  cases m <;> rfl

/-- `_finalize_review` never touches `top_severity`. -/
theorem finalizeReview_top (r : ReviewResult) :
    (finalizeReview r).summary.topSeverity = r.summary.topSeverity := by
  unfold finalizeReview
  dsimp only
  split
  · rfl
  · split <;> rfl

/-- The risk score after `_finalize_review`. -/
theorem finalizeReview_risk (r : ReviewResult) :
    (finalizeReview r).summary.riskScore =
      min 100 (r.summary.riskScore + planMetaExtra r.issues) := by
  unfold finalizeReview
  dsimp only
  split
  · rfl
  · split <;> rfl

/-- The status after `_finalize_review`. -/
theorem finalizeReview_status (r : ReviewResult) :
    (finalizeReview r).summary.status =
      (if min 100 (r.summary.riskScore + planMetaExtra r.issues) ≥ 80 then "REJECTED"
       else if min 100 (r.summary.riskScore + planMetaExtra r.issues) ≥ 30 then "WARNING"
       else r.summary.status) := by
  unfold finalizeReview
  dsimp only
  split
  · simp_all
  · split <;> simp_all

/-- C5 — In every review result produced by `analyze` and finalized by
`ReviewService`: `REJECTED` whenever the risk score is ≥ 80 or the top
severity is `CRITICAL`; `WARNING` whenever the score is in `[30, 80)` and
the rejection condition does not hold; `APPROVED` otherwise. -/
theorem claim_C5_review_status_thresholds (cfg : AnalyzerConfig) (pr : ParseResult)
    (planStrs metaStrs : Option (List String)) :
    ((review cfg pr planStrs metaStrs).summary.riskScore ≥ 80 ∨
        (review cfg pr planStrs metaStrs).summary.topSeverity = "CRITICAL" →
      (review cfg pr planStrs metaStrs).summary.status = "REJECTED") ∧
    (30 ≤ (review cfg pr planStrs metaStrs).summary.riskScore ∧
        (review cfg pr planStrs metaStrs).summary.riskScore < 80 ∧
        (review cfg pr planStrs metaStrs).summary.topSeverity ≠ "CRITICAL" →
      (review cfg pr planStrs metaStrs).summary.status = "WARNING") ∧
    ((review cfg pr planStrs metaStrs).summary.riskScore < 30 ∧
        (review cfg pr planStrs metaStrs).summary.topSeverity ≠ "CRITICAL" →
      (review cfg pr planStrs metaStrs).summary.status = "APPROVED") := by
  unfold review
  split
  case isTrue hcond =>
    rw [Bool.and_eq_true, decide_eq_true_eq, decide_eq_true_eq] at hcond
    exact ⟨fun _ => hcond.1, fun h => absurd hcond.2 h.2.2, fun h => absurd hcond.2 h.2⟩
  case isFalse hcond =>
    rw [Bool.and_eq_true, decide_eq_true_eq, decide_eq_true_eq] at hcond
    set r0 := analyze cfg pr with hr0
    set r1 := addMetaFindings (addPlanFindings r0 planStrs) metaStrs with hr1
    have hsum1 : r1.summary = r0.summary := by
      rw [hr1, addMetaFindings_summary, addPlanFindings_summary]
    have htop : (finalizeReview r1).summary.topSeverity = r0.summary.topSeverity := by
      rw [finalizeReview_top, hsum1]
    have hrisk : (finalizeReview r1).summary.riskScore =
        min 100 (r0.summary.riskScore + planMetaExtra r1.issues) := by
      rw [finalizeReview_risk, hsum1]
    have hstat : (finalizeReview r1).summary.status =
        (if min 100 (r0.summary.riskScore + planMetaExtra r1.issues) ≥ 80 then "REJECTED"
         else if min 100 (r0.summary.riskScore + planMetaExtra r1.issues) ≥ 30 then "WARNING"
         else r0.summary.status) := by
      rw [finalizeReview_status, hsum1]
    refine ⟨?_, ?_, ?_⟩
    · rintro (h80 | hcrit)
      · rw [hrisk] at h80
        rw [hstat, if_pos h80]
      · rw [htop] at hcrit
        have h100 := analyze_critical_risk cfg pr hcrit
        have : statusOfRisk (analyze cfg pr).summary.riskScore = "REJECTED" := by
          rw [h100]
          simp [statusOfRisk]
        have hcond2 : (analyze cfg pr).summary.status = "REJECTED" ∧
            (analyze cfg pr).summary.topSeverity = "CRITICAL" :=
          ⟨(analyze_status_eq cfg pr).trans this, hcrit⟩
        exact absurd hcond2 hcond
    · rintro ⟨h30, h80, _⟩
      rw [hrisk] at h30 h80
      rw [hstat, if_neg (by omega), if_pos h30]
    · rintro ⟨h30, _⟩
      rw [hrisk] at h30
      have hlt : r0.summary.riskScore + planMetaExtra r1.issues < 30 := by
        rcases min_lt_iff.1 h30 with h | h
        · omega
        · exact h
      have hr0lt : r0.summary.riskScore < 30 := by omega
      have happ : r0.summary.status = "APPROVED" := by
        rw [hr0, analyze_status_eq]
        rw [hr0] at hr0lt
        unfold statusOfRisk
        rw [if_neg (by omega), if_neg (by omega)]
      rw [hstat, if_neg (by omega), if_neg (by omega), happ]

/-- A concrete unconditional `DELETE`, used by witnesses. -/
def stmtDeleteNoWhere : Stmt :=
  { tag := .delete, key := "delete", sqlText := "DELETE FROM t"
    hasWhere := false, hasInto := false
    textHasLinkedPattern := false, hasCatalogTable := false
    crossJoinSnippets := [], bpViolations := [] }

/-- A concrete plain `SELECT`, used by witnesses. -/
def stmtPlainSelect : Stmt :=
  { tag := .select, key := "select", sqlText := "SELECT 1"
    hasWhere := false, hasInto := false
    textHasLinkedPattern := false, hasCatalogTable := false
    crossJoinSnippets := [], bpViolations := [] }

/-- A concrete `SELECT` with six best-practice violations (risk 30), used
by witnesses. -/
def stmtSelectSixBp : Stmt :=
  { stmtPlainSelect with
    bpViolations := ["BP001: a", "BP002: b", "BP003: c", "BP004: d", "BP005: e", "BP006: f"] }

/-- Witness for C5: the three threshold implications discharged at
concrete inputs (an unconditional `DELETE`, a `SELECT` with six BP
violations, a clean `SELECT`). -/
theorem claim_C5_witness :
    (review {} (.ok [stmtDeleteNoWhere]) none none).summary.status = "REJECTED" ∧
    (review {} (.ok [stmtSelectSixBp]) none none).summary.status = "WARNING" ∧
    (review {} (.ok [stmtPlainSelect]) none none).summary.status = "APPROVED" :=
  ⟨(claim_C5_review_status_thresholds {} (.ok [stmtDeleteNoWhere]) none none).1
      (Or.inl (by decide)),
   (claim_C5_review_status_thresholds {} (.ok [stmtSelectSixBp]) none none).2.1
      (by refine ⟨by decide, by decide, by decide⟩),
   (claim_C5_review_status_thresholds {} (.ok [stmtPlainSelect]) none none).2.2
      (by refine ⟨by decide, by decide⟩)⟩

/-! ### Claim C10: finding order and (non-)deduplication -/

/-- Issues appended by `_add_execution_plan_findings`. -/
theorem addPlanFindings_issues (r : ReviewResult) (p : Option (List String)) :
    (addPlanFindings r p).issues = r.issues ++ (p.getD []).map planFinding := by
  cases p <;> simp [addPlanFindings]

/-- Issues appended by `_add_metadata_findings`. -/
theorem addMetaFindings_issues (r : ReviewResult) (m : Option (List String)) :
    (addMetaFindings r m).issues = r.issues ++ (m.getD []).map metaFinding := by
  cases m <;> simp [addMetaFindings]

/-- `_finalize_review` does not touch the findings list. -/
theorem finalizeReview_issues (r : ReviewResult) :
    (finalizeReview r).issues = r.issues := by
  unfold finalizeReview
  dsimp only

/-- C10 (amended) — The findings sequence preserves insertion order: the
analyzer emits, for each statement in order, that statement's findings
(security rules, then cross-join findings, then best-practice findings),
and the orchestrator appends plan findings and then metadata findings.  No
cross-source or cross-statement deduplication by code+description is
performed (the only dedup is `list(set(...))` inside one statement's
best-practice rule engine, which is upstream of these inputs). -/
theorem claim_C10_finding_order (cfg : AnalyzerConfig) (l : List Stmt)
    (pr : ParseResult) (planStrs metaStrs : Option (List String)) :
    (analyze cfg (.ok l)).issues = l.flatMap (stmtFindings cfg) ∧
    (review cfg pr planStrs metaStrs).issues =
      (if (analyze cfg pr).summary.status = "REJECTED" &&
          (analyze cfg pr).summary.topSeverity = "CRITICAL" then
        (analyze cfg pr).issues
       else
        ((analyze cfg pr).issues ++ (planStrs.getD []).map planFinding)
          ++ (metaStrs.getD []).map metaFinding) := by
  constructor
  · simp [analyze, analyzeLoop_spec]
  · unfold review
    split
    · rfl
    · rw [finalizeReview_issues, addMetaFindings_issues, addPlanFindings_issues]

/-- Counterexample for C10 as stated: reviewing two identical
unconditional `DELETE` statements yields a findings list in which `SEC001`
(and likewise `SEC002`) appears twice with identical code and description —
the sequence is not deduplicated by code+description. -/
theorem claim_C10_counterexample :
    ¬ ((review {} (.ok [stmtDeleteNoWhere, stmtDeleteNoWhere]) none none).issues.map
        (fun f => (f.code, f.description))).Nodup := by
  decide

/-! ### Claim C6: circuit breaker
(`services/infrastructure/db_connection_service.py`)

Wall-clock instants (`time.time()`) are modelled as natural numbers; the
Python comparison `time.time() - last > RESET_TIMEOUT` is `now >
last + RESET_TIMEOUT`, which agrees with truncated `Nat` subtraction. -/

/-- The module-level `_CIRCUIT_STATE` dictionary. -/
structure CircuitState where
  failures : Nat
  lastFailureTime : Nat
  isOpen : Bool
deriving DecidableEq, Repr

/-- `MAX_FAILURES`. -/
def MAX_FAILURES : Nat := 5

/-- `RESET_TIMEOUT` (seconds). -/
def RESET_TIMEOUT : Nat := 30

/-- `DbConnectionService._check_circuit_breaker`, evaluated at time `now`:
raises (`.error`) while the breaker is open inside the cooldown, and
otherwise returns the (possibly reset) state. -/
def checkCircuitBreaker (now : Nat) (st : CircuitState) : Except String CircuitState :=
  if st.isOpen then
    if now - st.lastFailureTime > RESET_TIMEOUT then
      .ok { st with isOpen := false, failures := 0 }
    else
      .error "Database is temporarily unavailable (Circuit Breaker Open). Please try again later."
  else .ok st

/-- `DbConnectionService._record_failure` at time `now`. -/
def recordFailure (now : Nat) (st : CircuitState) : CircuitState :=
  let st := { st with failures := st.failures + 1, lastFailureTime := now }
  if st.failures ≥ MAX_FAILURES then { st with isOpen := true } else st

/-- `DbConnectionService._record_success`. -/
def recordSuccess (st : CircuitState) : CircuitState :=
  if st.failures > 0 then { st with failures := 0 } else st

theorem recordFailure_failures (now : Nat) (st : CircuitState) :
    (recordFailure now st).failures = st.failures + 1 := by
  unfold recordFailure
  dsimp only
  split <;> rfl

/-- A run of consecutive failures long enough to reach the threshold opens
the breaker. -/
theorem foldl_recordFailure_opens (times : List Nat) (st : CircuitState)
    (hne : times ≠ []) (hcnt : MAX_FAILURES ≤ st.failures + times.length) :
    (times.foldl (fun s t => recordFailure t s) st).isOpen = true := by
  induction times generalizing st with
  | nil => exact absurd rfl hne
  | cons t ts ih =>
    cases ts with
    | nil =>
      simp only [List.length_cons, List.length_nil] at hcnt
      simp only [List.foldl_cons, List.foldl_nil]
      unfold recordFailure
      dsimp only
      rw [if_pos (by omega)]
    | cons t2 ts2 =>
      simp only [List.foldl_cons] at ih ⊢
      refine ih _ (by simp) ?_
      rw [recordFailure_failures]
      simp only [List.length_cons] at hcnt ⊢
      omega

/-- The concrete initial breaker state. -/
def cbInit : CircuitState := { failures := 0, lastFailureTime := 0, isOpen := false }

/-- Five consecutive failures at time 0. -/
def cbAfterFiveFailures : CircuitState :=
  [0, 0, 0, 0, 0].foldl (fun s t => recordFailure t s) cbInit

/-- Counterexample for C6 as stated: after five failures the breaker is
open; the first check after the 30-second cooldown does not merely admit a
single half-open trial — it fully resets the breaker (closed, zero
failures) at admission time.  A failed trial therefore leaves the breaker
closed with failure count 1 instead of returning it to open, and the very
next acquisition is admitted again. -/
theorem claim_C6_counterexample :
    cbAfterFiveFailures.isOpen = true ∧
    checkCircuitBreaker 31 cbAfterFiveFailures =
      .ok { failures := 0, lastFailureTime := 0, isOpen := false } ∧
    (recordFailure 31 { failures := 0, lastFailureTime := 0, isOpen := false }).isOpen = false ∧
    checkCircuitBreaker 32 (recordFailure 31 { failures := 0, lastFailureTime := 0, isOpen := false }) =
      .ok { failures := 1, lastFailureTime := 31, isOpen := false } :=
  ⟨rfl, rfl, rfl, rfl⟩

/-- C6 (amended) — The breaker opens after 5 consecutive factory failures;
while open, every acquisition within 30 seconds of the last failure fails
with a circuit-open error; the first check after the cooldown fully resets
the breaker (closed, zero failures) and is admitted — there is no
distinguished single-trial half-open state; a failure recorded after that
reset leaves the breaker closed with failure count 1 (it reopens only
after 5 consecutive failures), and a success resets the failure count. -/
theorem claim_C6_breaker (st : CircuitState) (now : Nat) (times : List Nat) :
    (times ≠ [] → MAX_FAILURES ≤ st.failures + times.length →
      (times.foldl (fun s t => recordFailure t s) st).isOpen = true) ∧
    (st.isOpen = true → now ≤ st.lastFailureTime + RESET_TIMEOUT →
      checkCircuitBreaker now st =
        .error "Database is temporarily unavailable (Circuit Breaker Open). Please try again later.") ∧
    (st.isOpen = true → st.lastFailureTime + RESET_TIMEOUT < now →
      checkCircuitBreaker now st = .ok { st with isOpen := false, failures := 0 }) ∧
    (st.failures = 0 →
      recordFailure now st = { st with failures := 1, lastFailureTime := now }) ∧
    ((recordSuccess st).failures = 0 ∧ (recordSuccess st).isOpen = st.isOpen) := by
  refine ⟨foldl_recordFailure_opens times st, ?_, ?_, ?_, ?_⟩
  · intro hopen hle
    unfold checkCircuitBreaker
    rw [if_pos hopen, if_neg (by omega)]
  · intro hopen hlt
    unfold checkCircuitBreaker
    rw [if_pos hopen, if_pos (by omega)]
  · intro h0
    unfold recordFailure
    dsimp only
    rw [h0, if_neg (by unfold MAX_FAILURES; omega)]
  · unfold recordSuccess
    split
    · simp_all
    · simp_all

/-- Witness for C6 (amended), discharging every hypothesis at concrete
states and times. -/
theorem claim_C6_witness :
    ([0, 0, 0, 0, 0].foldl (fun s t => recordFailure t s) cbInit).isOpen = true ∧
    checkCircuitBreaker 10 { failures := 5, lastFailureTime := 0, isOpen := true } =
      .error "Database is temporarily unavailable (Circuit Breaker Open). Please try again later." ∧
    checkCircuitBreaker 31 { failures := 5, lastFailureTime := 0, isOpen := true } =
      .ok { failures := 0, lastFailureTime := 0, isOpen := false } ∧
    recordFailure 31 { failures := 0, lastFailureTime := 0, isOpen := false } =
      { failures := 1, lastFailureTime := 31, isOpen := false } ∧
    (recordSuccess { failures := 3, lastFailureTime := 7, isOpen := false }).failures = 0 :=
  ⟨(claim_C6_breaker cbInit 0 [0, 0, 0, 0, 0]).1 (by decide) (by decide),
   (claim_C6_breaker { failures := 5, lastFailureTime := 0, isOpen := true } 10 []).2.1
      (by decide) (by decide),
   (claim_C6_breaker { failures := 5, lastFailureTime := 0, isOpen := true } 31 []).2.2.1
      (by decide) (by decide),
   (claim_C6_breaker { failures := 0, lastFailureTime := 0, isOpen := false } 31 []).2.2.2.1
      (by decide),
   (claim_C6_breaker { failures := 3, lastFailureTime := 7, isOpen := false } 0 []).2.2.2.2.1⟩

/-! ### Concurrency throttler (`services/security/concurrency_throttler.py`)

`active_queries` is a dict of dicts `{env: {user: count}}`; the model
flattens it to an association list keyed by `(env, user)` (dict semantics:
unique keys, update-in-place, insert-at-end), which preserves every
observable quantity the code reads (per-key counts and per-environment
value sums). -/

abbrev ThrottleKey := String × String
abbrev Ledger := List (ThrottleKey × Int)

/-- `active_queries[env].get(user, 0)` (0 when absent). -/
def lcount : Ledger → ThrottleKey → Int
  | [], _ => 0
  | (k', v) :: t, k => if k' = k then v else lcount t k

/-- `sum(active_queries[env].values())`. -/
def envSum : Ledger → String → Int
  | [], _ => 0
  | (k, v) :: t, e => (if k.1 = e then v else 0) + envSum t e

/-- Dict write `active_queries[env][user] = v` (replace or append). -/
def setK : Ledger → ThrottleKey → Int → Ledger
  | [], k, v => [(k, v)]
  | (k', v') :: t, k, v => if k' = k then (k, v) :: t else (k', v') :: setK t k v

/-- Dict delete `del active_queries[env][user]`. -/
def eraseK : Ledger → ThrottleKey → Ledger
  | [], _ => []
  | (k', v') :: t, k => if k' = k then t else (k', v') :: eraseK t k

/-- `ConcurrencyThrottler.acquire`, the guarded increment under the lock:
`none` models the raised `TooManyConcurrentQueriesError`. -/
def throttleAcquire (maxC maxU : Int) (st : Ledger) (env user : String) : Option Ledger :=
  if envSum st env ≥ maxC then none
  else if lcount st (env, user) ≥ maxU then none
  else some (setK st (env, user) (lcount st (env, user) + 1))

/-- The `finally` block of `ConcurrencyThrottler.acquire`: decrement and
delete the key when the counter reaches zero. -/
def throttleRelease (st : Ledger) (env user : String) : Ledger :=
  if lcount st (env, user) - 1 = 0 then eraseK st (env, user)
  else setK st (env, user) (lcount st (env, user) - 1)

/-! ### Result streaming (`fetch_strategy` inside `execute_readonly`) -/

/-- One result cell: a string (sized by its UTF-8 byte length, truncated at
1000 characters) or any other value (estimated at 16 bytes). -/
inductive Cell
  | strCell (s : String)
  | otherCell
deriving DecidableEq, Repr

/-- The per-cell size estimate accumulated by `fetch_strategy`. -/
def cellSize : Cell → Nat
  | .strCell s => s.utf8ByteSize
  | .otherCell => 16

/-- The per-cell truncation applied by `fetch_strategy`
(`value[:1000] + "...(truncated)"` for long strings). -/
def truncCell : Cell → Cell
  | .strCell s =>
    if s.data.length > 1000 then .strCell (String.mk (s.data.take 1000) ++ "...(truncated)")
    else .strCell s
  | .otherCell => .otherCell

def rowSize (r : List Cell) : Nat := (r.map cellSize).sum

/-- The row loop of `fetch_strategy`, flattened over `fetchmany` batches
(behaviour-equivalent: the inner loop breaks out of both loops at the row
cap, and the byte-cap `DatabaseError` aborts everything).  The accumulator
is added twice per row, exactly as the source does on lines 323–324.  The
returned `Nat` is the internal `current_payload_size`, exposed for
specification. -/
def fetchStrategyAux (maxRows maxPayloadBytes : Nat) :
    List (List Cell) → List (List Cell) → Nat → Except String (List (List Cell) × Nat)
  | [], rows, acc => .ok (rows.reverse, acc)
  | r :: rest, rows, acc =>
    if acc + rowSize r + rowSize r > maxPayloadBytes then
      .error "Query result too large (exceeded the payload size limit). Please refine your filters."
    else if (r.map truncCell :: rows).length ≥ maxRows then
      .ok ((r.map truncCell :: rows).reverse, acc + rowSize r + rowSize r)
    else
      fetchStrategyAux maxRows maxPayloadBytes rest (r.map truncCell :: rows)
        (acc + rowSize r + rowSize r)

/-- `fetch_strategy` on the full cursor row stream. -/
def fetch_strategy (maxRows maxPayloadBytes : Nat) (raw : List (List Cell)) :
    Except String (List (List Cell) × Nat) :=
  fetchStrategyAux maxRows maxPayloadBytes raw [] 0

/-! ### `execute_readonly` (`services/core/execution_service.py`) -/

/-- ASCII lower-casing, as Python `str.lower` on ASCII input. -/
def pyLowerChar : Char → Char
  | 'A' => 'a' | 'B' => 'b' | 'C' => 'c' | 'D' => 'd' | 'E' => 'e'
  | 'F' => 'f' | 'G' => 'g' | 'H' => 'h' | 'I' => 'i' | 'J' => 'j'
  | 'K' => 'k' | 'L' => 'l' | 'M' => 'm' | 'N' => 'n' | 'O' => 'o'
  | 'P' => 'p' | 'Q' => 'q' | 'R' => 'r' | 'S' => 's' | 'T' => 't'
  | 'U' => 'u' | 'V' => 'v' | 'W' => 'w' | 'X' => 'x' | 'Y' => 'y'
  | 'Z' => 'z'
  | c => c

/-- Python `str.lower` (ASCII). -/
def pyLower (s : String) : String := String.mk (s.data.map pyLowerChar)

/-- `NolockInjector.should_inject`. -/
def should_inject (env : String) (enableNolockHint : Bool) : Bool :=
  enableNolockHint && env = "Prd"

/-- The configuration slice `execute_readonly` reads, with
`get_env_setting` already resolved for the target environment.
`envDefaultDb` models `connection_components[target_env].database`. -/
structure ExecConfig where
  environment : String := "Int"
  allowedDatabases : List String := []
  envDefaultDb : Option String := none
  maxRows : Nat := 1000
  maxPayloadSizeMb : Nat := 1
  maxTimeSeconds : Nat := 60
  enableNolock : Bool := false
  enableCostCheck : Bool := true
  maxConcurrent : Int := 5
  maxPerUser : Int := 2
deriving DecidableEq, Repr

/-- Oracle inputs: the outcomes of every external interaction one call of
`execute_readonly` performs. -/
structure ExecIO where
  /-- `sqlglot` parse of the submitted query, as `validate_readonly` sees it. -/
  parseResult : ParseResult
  /-- parse of the (possibly pagination-rewritten) query, as the full
  review re-parses it. -/
  reviewParse : ParseResult
  /-- the review step raised an exception (caught: fail-open). -/
  reviewRaises : Bool
  /-- plan-analyzer strings for the review (`none` = plan unavailable). -/
  planStrs : Option (List String)
  /-- metadata-analyzer strings for the review (`none` = step raised). -/
  metaStrs : Option (List String)
  /-- cost gate: `get_execution_plan` succeeded with non-empty XML. -/
  planXmlOk : Bool
  /-- `QueryCostChecker.check_query_cost` verdict (`is_allowed`;
  `True` also covers its internal fail-open on extraction errors). -/
  costAllowed : Bool
  /-- `NolockInjector.inject_nolock_hints` outcome (`.error` models the
  raised `NolockInjectionError`). -/
  nolockResult : Except String String
  /-- cursor rows, or a raised `DatabaseError`/driver error. -/
  dbRows : Except String (List (List Cell))
deriving Repr

/-- `blocking_violations` entries: either a dict built from a finding, or
the synthetic dict built when the summary is REJECTED/CRITICAL with no
individual blocking finding. -/
inductive BlockingViolation
  | findingV (code severity category title description : String)
  | reviewRejectedV (status : String) (riskScore : Nat) (verdict topSeverity : String)
deriving DecidableEq, Repr

/-- `best_practice_warnings` entries. -/
structure BpWarning where
  code : String
  severity : String
  title : String
  description : String
  recommendation : String
deriving DecidableEq, Repr

/-- The `review_summary` dict embedded in responses. -/
structure ReviewSummaryOut where
  status : String
  riskScore : Nat
  verdict : String
deriving DecidableEq, Repr

/-- The `pagination` response dict. -/
structure PaginationMeta where
  page : Int
  pageSize : Int
  rowsReturned : Nat
  offset : Int
deriving DecidableEq, Repr

/-- The `limits_applied` response dict. -/
structure LimitsApplied where
  maxRows : Nat
  maxTimeSeconds : Nat
  nolockEnabled : Bool
deriving DecidableEq, Repr

/-- The response dict of `execute_readonly` (wall-clock
`execution_time_ms` is outside the model).  `dbExecuted` is a ghost flag:
the call reached layer 6 and ran the final query via
`db.execute_query`.  `payloadEstimate` is the ghost final value of
`current_payload_size` on success. -/
structure ExecResult where
  success : Bool
  error : Option String := none
  riskScore : Option Nat := none
  data : Option (List (List Cell)) := none
  rowCount : Option Nat := none
  blockingViolations : List BlockingViolation := []
  reviewSummary : Option ReviewSummaryOut := none
  bestPracticeWarnings : List BpWarning := []
  retryAfterSeconds : Option Nat := none
  pagination : Option PaginationMeta := none
  limitsApplied : Option LimitsApplied := none
  dbExecuted : Bool := false
  payloadEstimate : Option Nat := none
deriving DecidableEq, Repr

def toBlockingViolation (f : Finding) : BlockingViolation :=
  .findingV f.code f.severity f.category f.title f.description

def toBpWarning (f : Finding) : BpWarning :=
  { code := f.code, severity := f.severity, title := f.title
    description := f.description, recommendation := f.recommendation }

/-- The blocking test of the issue loop (line 175):
`severity in ["CRITICAL", "HIGH"] and category != "BEST_PRACTICE"`. -/
def isBlockingFinding (f : Finding) : Bool :=
  (f.severity = "CRITICAL" || f.severity = "HIGH") && f.category ≠ "BEST_PRACTICE"

/-- The issue loop of `execute_readonly` (lines 154–191): collect blocking
violations and best-practice warnings, preserving order. -/
def classifyIssues : List Finding → List BlockingViolation × List BpWarning
  | [] => ([], [])
  | f :: rest =>
    let r := classifyIssues rest
    if isBlockingFinding f then (toBlockingViolation f :: r.1, r.2)
    else if f.category = "BEST_PRACTICE" then (r.1, toBpWarning f :: r.2)
    else r

/-- Lines 193–205: add the synthetic blocking entry when the summary is
`REJECTED` with top severity `CRITICAL` and no individual blocking
finding was collected. -/
def reviewGate (r : ReviewResult) : List BlockingViolation × List BpWarning :=
  if r.summary.status = "REJECTED" && r.summary.topSeverity = "CRITICAL" &&
      (classifyIssues r.issues).1.isEmpty then
    ([.reviewRejectedV r.summary.status r.summary.riskScore r.summary.verdict r.summary.topSeverity],
     (classifyIssues r.issues).2)
  else classifyIssues r.issues

/-- Layer 2.1 (lines 113–134): the allowed-database check.  `true` means
the request is rejected. -/
def allowListBlocked (cfg : ExecConfig) (database : Option String) : Bool :=
  if cfg.allowedDatabases ≠ [] then
    match (match database with | some d => some d | none => cfg.envDefaultDb) with
    | some t => !((cfg.allowedDatabases.map pyLower).contains (pyLower t))
    | none => false
  else false

def summaryOut (r : ReviewResult) : ReviewSummaryOut :=
  { status := r.summary.status, riskScore := r.summary.riskScore, verdict := r.summary.verdict }

/-- Layer 6 (execution and streaming).  `rev` is the review result kept for
the response (`none` when the review step raised), `bpw` the collected
best-practice warnings. -/
def execRun (cfg : ExecConfig) (io : ExecIO) (pageSize page : Option Int)
    (rev : Option ReviewResult) (bpw : List BpWarning) : ExecResult :=
  match io.dbRows with
  | .error e => { success := false, error := some ("Execution error: " ++ e), dbExecuted := true }
  | .ok raw =>
    match fetch_strategy cfg.maxRows (cfg.maxPayloadSizeMb * 1024 * 1024) raw with
    | .error e => { success := false, error := some ("Execution error: " ++ e), dbExecuted := true }
    | .ok (rows, payload) =>
      { success := true
        data := some rows
        rowCount := some rows.length
        limitsApplied := some
          { maxRows := cfg.maxRows, maxTimeSeconds := cfg.maxTimeSeconds
            nolockEnabled := cfg.enableNolock }
        reviewSummary := rev.map summaryOut
        bestPracticeWarnings := bpw
        pagination :=
          match pageSize, page with
          | some ps, some pg =>
            some { page := pg, pageSize := ps, rowsReturned := rows.length
                   offset := (pg - 1) * ps }
          | _, _ => none
        dbExecuted := true
        payloadEstimate := some payload }

/-- Layers 4–5.5 (cost gate, NOLOCK injection; the resource-control
injector is total — it catches its own exceptions and only rewrites the
executed text, which the model does not track). -/
def execTail (cfg : ExecConfig) (io : ExecIO) (targetEnv : String)
    (pageSize page : Option Int) (rev : Option ReviewResult) (bpw : List BpWarning) :
    ExecResult :=
  if cfg.enableCostCheck && io.planXmlOk && !io.costAllowed then
    { success := false
      error := some ("Query cost exceeds the configured threshold for the " ++ targetEnv ++ " environment") }
  else if should_inject targetEnv cfg.enableNolock then
    match io.nolockResult with
    | .error e =>
      { success := false
        error := some ("Security enforcement failed: " ++ e ++ ". Query blocked on "
          ++ targetEnv ++ " to prevent locking.")
        riskScore := some 100 }
    | .ok _ => execRun cfg io pageSize page rev bpw
  else execRun cfg io pageSize page rev bpw

/-- Layers 2–5.5: the body of the `with acquire(...)` block. -/
def execBody (cfg : ExecConfig) (acfg : AnalyzerConfig) (io : ExecIO)
    (targetEnv : String) (database : Option String) (pageSize page : Option Int) :
    ExecResult :=
  if !(validate_readonly io.parseResult).1 then
    { success := false
      error := some ("Security Violation: " ++ (validate_readonly io.parseResult).2)
      riskScore := some 100 }
  else if allowListBlocked cfg database then
    { success := false
      error := some "Target database is not in the allowed list."
      riskScore := some 100 }
  else if io.reviewRaises then
    -- review failed: log and continue with no review context (fail-open)
    execTail cfg io targetEnv pageSize page none []
  else if (reviewGate (review acfg io.reviewParse io.planStrs io.metaStrs)).1 ≠ [] then
    { success := false
      error := some "Query blocked due to security or performance violations detected in review"
      blockingViolations := (reviewGate (review acfg io.reviewParse io.planStrs io.metaStrs)).1
      reviewSummary := some (summaryOut (review acfg io.reviewParse io.planStrs io.metaStrs))
      bestPracticeWarnings := (reviewGate (review acfg io.reviewParse io.planStrs io.metaStrs)).2 }
  else
    execTail cfg io targetEnv pageSize page (some (review acfg io.reviewParse io.planStrs io.metaStrs))
      (reviewGate (review acfg io.reviewParse io.planStrs io.metaStrs)).2

/-- `ExecutionService.execute_readonly`: pagination-parameter validation,
scoped throttle acquisition (released on every exit of the body — the
context manager's `finally`), then the gate chain.  Returns the response
and the throttle ledger after the call. -/
def execute_readonly (cfg : ExecConfig) (acfg : AnalyzerConfig) (io : ExecIO)
    (st : Ledger) (env database : Option String) (user : String)
    (pageSize page : Option Int) : ExecResult × Ledger :=
  let targetEnv := env.getD cfg.environment
  if pageSize.isSome || page.isSome then
    match pageSize, page with
    | some ps, some pg =>
      if ps < 1 ∨ ps > 1000 then
        ({ success := false, error := some "page_size must be between 1 and 1000" }, st)
      else if pg < 1 then
        ({ success := false, error := some "page must be at least 1" }, st)
      else
        match throttleAcquire cfg.maxConcurrent cfg.maxPerUser st targetEnv user with
        | none =>
          ({ success := false
             error := some "Too many concurrent queries. Please try again later."
             retryAfterSeconds := some 5 }, st)
        | some st2 =>
          (execBody cfg acfg io targetEnv database pageSize page,
           throttleRelease st2 targetEnv user)
    | _, _ =>
      ({ success := false
         error := some "Both page_size and page must be provided together, or both omitted." }, st)
  else
    match throttleAcquire cfg.maxConcurrent cfg.maxPerUser st targetEnv user with
    | none =>
      ({ success := false
         error := some "Too many concurrent queries. Please try again later."
         retryAfterSeconds := some 5 }, st)
    | some st2 =>
      (execBody cfg acfg io targetEnv database none none,
       throttleRelease st2 targetEnv user)

/-! ### Claim C2: the read-only validator and its enforcement -/

/-- C2 — `validate_readonly` returns ok exactly for a successful parse of
one single `SELECT` statement without `INTO`; and whenever it returns
not-ok, `execute_readonly` (past the throttle) answers with a
security-violation error carrying risk score 100 and does not execute
anything (the returned record has `dbExecuted = false` and all data fields
absent). -/
theorem claim_C2_readonly_validator (pr : ParseResult) (cfg : ExecConfig)
    (acfg : AnalyzerConfig) (io : ExecIO) (st st2 : Ledger)
    (env database : Option String) (user : String) :
    ((validate_readonly pr).1 = true ↔
        ∃ s, pr = .ok [s] ∧ s.tag = .select ∧ s.hasInto = false) ∧
    ((validate_readonly io.parseResult).1 = false →
      throttleAcquire cfg.maxConcurrent cfg.maxPerUser st (env.getD cfg.environment) user =
        some st2 →
      (execute_readonly cfg acfg io st env database user none none).1 =
        { success := false
          error := some ("Security Violation: " ++ (validate_readonly io.parseResult).2)
          riskScore := some 100 }) := by
  constructor
  · cases pr with
    | error e => simp [validate_readonly]
    | ok l =>
      rcases l with _ | ⟨s, _ | ⟨s2, t⟩⟩
      · simp [validate_readonly]
      · by_cases ht : s.tag = StmtTag.select
        · by_cases hi : s.hasInto <;> simp [validate_readonly, ht, hi]
        · simp [validate_readonly, ht]
      · simp [validate_readonly]
  · intro hv hacq
    unfold execute_readonly
    simp only [Option.isSome_none, Bool.or_self, Bool.false_eq_true, if_false]
    rw [hacq]
    show execBody cfg acfg io (env.getD cfg.environment) database none none = _
    unfold execBody
    rw [hv]
    simp

/-- A call whose query parses as a single non-`SELECT` statement. -/
def ioNonSelect : ExecIO :=
  { parseResult := .ok [stmtDeleteNoWhere], reviewParse := .ok [stmtDeleteNoWhere]
    reviewRaises := true, planStrs := none, metaStrs := none
    planXmlOk := false, costAllowed := true, nolockResult := .ok ""
    dbRows := .ok [] }

/-- Witness for C2: the validator accepts a single plain `SELECT`, and a
`DELETE` submitted to `execute_readonly` yields the security-violation
rejection with risk score 100 and no execution. -/
theorem claim_C2_witness :
    (validate_readonly (.ok [stmtPlainSelect])).1 = true ∧
    (execute_readonly {} {} ioNonSelect [] none none "alice" none none).1 =
      { success := false
        error := some ("Security Violation: " ++ (validate_readonly ioNonSelect.parseResult).2)
        riskScore := some 100 } :=
  ⟨(claim_C2_readonly_validator (.ok [stmtPlainSelect]) {} {} ioNonSelect [] []
      none none "alice").1.mpr ⟨stmtPlainSelect, rfl, rfl, rfl⟩,
   (claim_C2_readonly_validator (.ok [stmtPlainSelect]) {} {} ioNonSelect []
      [(("Int", "alice"), 1)] none none "alice").2 (by decide) rfl⟩

/-! ### Claim C3: hint-injection failure is fail-closed -/

theorem execTail_hint_fail (cfg : ExecConfig) (io : ExecIO) (targetEnv : String)
    (ps pg : Option Int) (rev : Option ReviewResult) (bpw : List BpWarning)
    (hinj : should_inject targetEnv cfg.enableNolock = true)
    (e : String) (hfail : io.nolockResult = .error e) :
    (execTail cfg io targetEnv ps pg rev bpw).success = false ∧
    (execTail cfg io targetEnv ps pg rev bpw).dbExecuted = false := by
  unfold execTail
  split
  · exact ⟨rfl, rfl⟩
  · rw [hfail]
    simp [hinj]

theorem execBody_hint_fail (cfg : ExecConfig) (acfg : AnalyzerConfig) (io : ExecIO)
    (targetEnv : String) (database : Option String) (ps pg : Option Int)
    (hinj : should_inject targetEnv cfg.enableNolock = true)
    (e : String) (hfail : io.nolockResult = .error e) :
    (execBody cfg acfg io targetEnv database ps pg).success = false ∧
    (execBody cfg acfg io targetEnv database ps pg).dbExecuted = false := by
  unfold execBody
  split
  · exact ⟨rfl, rfl⟩
  · split
    · exact ⟨rfl, rfl⟩
    · split
      · exact execTail_hint_fail cfg io targetEnv ps pg none [] hinj e hfail
      · split
        · exact ⟨rfl, rfl⟩
        · exact execTail_hint_fail cfg io targetEnv ps pg _ _ hinj e hfail

/-- C3 — If the shared-read hint is required for the target environment
(`should_inject`) and the injector raises, `execute_readonly` returns an
error result and the execution layer is never reached: the original
un-hinted query is not run. -/
theorem claim_C3_hint_fail_closed (cfg : ExecConfig) (acfg : AnalyzerConfig) (io : ExecIO)
    (st : Ledger) (env database : Option String) (user : String) (ps pg : Option Int)
    (hinj : should_inject (env.getD cfg.environment) cfg.enableNolock = true)
    (e : String) (hfail : io.nolockResult = .error e) :
    (execute_readonly cfg acfg io st env database user ps pg).1.success = false ∧
    (execute_readonly cfg acfg io st env database user ps pg).1.dbExecuted = false := by
  unfold execute_readonly
  rcases ps with _ | ps' <;> rcases pg with _ | pg' <;>
    simp only [Option.isSome_none, Option.isSome_some, Bool.or_self, Bool.or_true,
      Bool.true_or, Bool.false_eq_true, if_false, if_true]
  · -- no pagination parameters
    cases hacq : throttleAcquire cfg.maxConcurrent cfg.maxPerUser st (env.getD cfg.environment) user with
    | none => exact ⟨rfl, rfl⟩
    | some st2 => exact execBody_hint_fail cfg acfg io _ database none none hinj e hfail
  · exact ⟨trivial, trivial⟩
  · exact ⟨trivial, trivial⟩
  · split
    · exact ⟨rfl, rfl⟩
    · split
      · exact ⟨rfl, rfl⟩
      · cases hacq : throttleAcquire cfg.maxConcurrent cfg.maxPerUser st (env.getD cfg.environment) user with
        | none => exact ⟨rfl, rfl⟩
        | some st2 =>
          exact execBody_hint_fail cfg acfg io _ database (some ps') (some pg') hinj e hfail

/-- Witness for C3 at a concrete production configuration with a failing
injector. -/
def ioNolockFail : ExecIO :=
  { parseResult := .ok [stmtPlainSelect], reviewParse := .ok [stmtPlainSelect]
    reviewRaises := true, planStrs := none, metaStrs := none
    planXmlOk := false, costAllowed := true
    nolockResult := .error "Failed to inject NOLOCK hints: parse error"
    dbRows := .ok [] }

theorem claim_C3_witness :
    should_inject ((some "Prd").getD ({ enableNolock := true : ExecConfig }).environment)
      ({ enableNolock := true : ExecConfig }).enableNolock = true ∧
    ioNolockFail.nolockResult = .error "Failed to inject NOLOCK hints: parse error" ∧
    (execute_readonly { enableNolock := true } {} ioNolockFail [] (some "Prd") none "alice"
        none none).1.success = false ∧
    (execute_readonly { enableNolock := true } {} ioNolockFail [] (some "Prd") none "alice"
        none none).1.dbExecuted = false := by
  refine ⟨by decide, rfl, ?_, ?_⟩
  · exact (claim_C3_hint_fail_closed { enableNolock := true } {} ioNolockFail [] (some "Prd")
      none "alice" none none (by decide) _ rfl).1
  · exact (claim_C3_hint_fail_closed { enableNolock := true } {} ioNolockFail [] (some "Prd")
      none "alice" none none (by decide) _ rfl).2

/-! ### Claim C9: the whole review layer is fail-open -/

theorem execRun_noreview (cfg : ExecConfig) (io : ExecIO) (ps pg : Option Int) :
    (execRun cfg io ps pg none []).blockingViolations = [] ∧
    (execRun cfg io ps pg none []).bestPracticeWarnings = [] ∧
    (execRun cfg io ps pg none []).reviewSummary = none := by
  unfold execRun
  split
  · exact ⟨rfl, rfl, rfl⟩
  · split
    · exact ⟨rfl, rfl, rfl⟩
    · exact ⟨rfl, rfl, rfl⟩

theorem execTail_noreview (cfg : ExecConfig) (io : ExecIO) (targetEnv : String)
    (ps pg : Option Int) :
    (execTail cfg io targetEnv ps pg none []).blockingViolations = [] ∧
    (execTail cfg io targetEnv ps pg none []).bestPracticeWarnings = [] ∧
    (execTail cfg io targetEnv ps pg none []).reviewSummary = none := by
  unfold execTail
  split
  · exact ⟨rfl, rfl, rfl⟩
  · split
    · split
      · exact ⟨rfl, rfl, rfl⟩
      · exact execRun_noreview cfg io ps pg
    · exact execRun_noreview cfg io ps pg

/-- C9 — If the full review step raises, the exception is caught and
execution proceeds: the response never carries blocking violations,
best-practice warnings or a review summary, and — when the remaining gates
(validator, allow-list, cost gate, hint rewriters) pass — the query is
still executed and reported successful with `review_summary` absent. -/
theorem claim_C9_review_fail_open (cfg : ExecConfig) (acfg : AnalyzerConfig) (io : ExecIO)
    (st st2 : Ledger) (env database : Option String) (user : String) (ps pg : Option Int)
    (q : String) (raw rows : List (List Cell)) (payload : Nat)
    (hrev : io.reviewRaises = true) :
    ((execute_readonly cfg acfg io st env database user ps pg).1.blockingViolations = [] ∧
     (execute_readonly cfg acfg io st env database user ps pg).1.bestPracticeWarnings = [] ∧
     (execute_readonly cfg acfg io st env database user ps pg).1.reviewSummary = none) ∧
    (throttleAcquire cfg.maxConcurrent cfg.maxPerUser st (env.getD cfg.environment) user =
        some st2 →
     (validate_readonly io.parseResult).1 = true →
     allowListBlocked cfg database = false →
     (cfg.enableCostCheck && io.planXmlOk && !io.costAllowed) = false →
     io.nolockResult = .ok q →
     io.dbRows = .ok raw →
     fetch_strategy cfg.maxRows (cfg.maxPayloadSizeMb * 1024 * 1024) raw = .ok (rows, payload) →
     (execute_readonly cfg acfg io st env database user none none).1.success = true ∧
     (execute_readonly cfg acfg io st env database user none none).1.dbExecuted = true ∧
     (execute_readonly cfg acfg io st env database user none none).1.reviewSummary = none) := by
  have hbody : ∀ (tEnv : String) (ps' pg' : Option Int),
      (execBody cfg acfg io tEnv database ps' pg').blockingViolations = [] ∧
      (execBody cfg acfg io tEnv database ps' pg').bestPracticeWarnings = [] ∧
      (execBody cfg acfg io tEnv database ps' pg').reviewSummary = none := by
    intro tEnv ps' pg'
    unfold execBody
    simp only [hrev, if_true]
    split
    · exact ⟨rfl, rfl, rfl⟩
    · split
      · exact ⟨rfl, rfl, rfl⟩
      · exact execTail_noreview cfg io tEnv ps' pg'
  constructor
  · unfold execute_readonly
    rcases ps with _ | ps' <;> rcases pg with _ | pg' <;>
      simp only [Option.isSome_none, Option.isSome_some, Bool.or_self, Bool.or_true,
        Bool.true_or, Bool.false_eq_true, if_false, if_true]
    · cases hacq : throttleAcquire cfg.maxConcurrent cfg.maxPerUser st (env.getD cfg.environment) user with
      | none => exact ⟨rfl, rfl, rfl⟩
      | some st2' => exact hbody _ none none
    · exact ⟨trivial, trivial, trivial⟩
    · exact ⟨trivial, trivial, trivial⟩
    · split
      · exact ⟨rfl, rfl, rfl⟩
      · split
        · exact ⟨rfl, rfl, rfl⟩
        · cases hacq : throttleAcquire cfg.maxConcurrent cfg.maxPerUser st (env.getD cfg.environment) user with
          | none => exact ⟨rfl, rfl, rfl⟩
          | some st2' => exact hbody _ (some ps') (some pg')
  · intro hacq hval hallow hcost hnl hdb hfetch
    have hrun : (execRun cfg io none none none []).success = true ∧
        (execRun cfg io none none none []).dbExecuted = true ∧
        (execRun cfg io none none none []).reviewSummary = none := by
      unfold execRun
      rw [hdb]
      dsimp only
      rw [hfetch]
      exact ⟨rfl, rfl, rfl⟩
    have htail : (execTail cfg io (env.getD cfg.environment) none none none []).success = true ∧
        (execTail cfg io (env.getD cfg.environment) none none none []).dbExecuted = true ∧
        (execTail cfg io (env.getD cfg.environment) none none none []).reviewSummary = none := by
      unfold execTail
      rw [hcost]
      simp only [Bool.false_eq_true, if_false]
      split
      · rw [hnl]
        exact hrun
      · exact hrun
    have hbody2 : (execBody cfg acfg io (env.getD cfg.environment) database none none).success = true ∧
        (execBody cfg acfg io (env.getD cfg.environment) database none none).dbExecuted = true ∧
        (execBody cfg acfg io (env.getD cfg.environment) database none none).reviewSummary = none := by
      unfold execBody
      rw [hval, hallow]
      simp only [hrev, Bool.not_true, Bool.false_eq_true, if_false, if_true]
      exact htail
    unfold execute_readonly
    simp only [Option.isSome_none, Bool.or_self, Bool.false_eq_true, if_false]
    rw [hacq]
    exact hbody2

/-- Witness for C9: a concrete run in which the review raises and the
query still executes successfully with no review summary. -/
def ioReviewRaises : ExecIO :=
  { parseResult := .ok [stmtPlainSelect], reviewParse := .ok [stmtPlainSelect]
    reviewRaises := true, planStrs := none, metaStrs := none
    planXmlOk := false, costAllowed := true
    nolockResult := .ok "SELECT 1"
    dbRows := .ok [[Cell.otherCell]] }

theorem claim_C9_witness :
    ioReviewRaises.reviewRaises = true ∧
    (execute_readonly {} {} ioReviewRaises [] none none "alice" none none).1.success = true ∧
    (execute_readonly {} {} ioReviewRaises [] none none "alice" none none).1.dbExecuted = true ∧
    (execute_readonly {} {} ioReviewRaises [] none none "alice" none none).1.reviewSummary = none := by
  have h := (claim_C9_review_fail_open {} {} ioReviewRaises [] [(("Int", "alice"), 1)]
    none none "alice" none none "SELECT 1" [[Cell.otherCell]] [[Cell.otherCell]] 32 rfl).2
    (by decide) (by decide) (by decide) (by decide) rfl rfl rfl
  exact ⟨rfl, h.1, h.2.1, h.2.2⟩

/-! ### Claim C1: review findings blocking execution -/

/-- The issue loop collects exactly the findings with
`severity ∈ {CRITICAL, HIGH}` outside `BEST_PRACTICE` as blocking
violations, and exactly the `BEST_PRACTICE` findings as warnings, in
order. -/
theorem classifyIssues_spec (l : List Finding) :
    classifyIssues l =
      ((l.filter isBlockingFinding).map toBlockingViolation,
       (l.filter (fun f => !isBlockingFinding f && f.category = "BEST_PRACTICE")).map
         toBpWarning) := by
  induction l with
  | nil => rfl
  | cons f rest ih =>
    by_cases hb : isBlockingFinding f
    · simp [classifyIssues, ih, List.filter_cons, hb]
    · by_cases hc : f.category = "BEST_PRACTICE" <;>
        simp [classifyIssues, ih, List.filter_cons, hb, hc]

theorem reviewGate_snd (r : ReviewResult) :
    (reviewGate r).2 = (classifyIssues r.issues).2 := by
  unfold reviewGate
  split <;> rfl

theorem reviewGate_fst_of_ne (r : ReviewResult)
    (h : (classifyIssues r.issues).1 ≠ []) :
    (reviewGate r).1 = (classifyIssues r.issues).1 := by
  unfold reviewGate
  split
  case isTrue hcond =>
    rw [Bool.and_eq_true, Bool.and_eq_true] at hcond
    exact absurd (List.isEmpty_iff.1 hcond.2) h
  case isFalse => rfl

/-- The blocking set is non-empty exactly when some finding is blocking or
the summary is `REJECTED` with top severity `CRITICAL`. -/
theorem reviewGate_ne_nil_iff (r : ReviewResult) :
    (reviewGate r).1 ≠ [] ↔
      ((∃ f ∈ r.issues, isBlockingFinding f) ∨
        (r.summary.status = "REJECTED" ∧ r.summary.topSeverity = "CRITICAL")) := by
  unfold reviewGate
  split
  case isTrue hcond =>
    rw [Bool.and_eq_true, Bool.and_eq_true, decide_eq_true_eq, decide_eq_true_eq] at hcond
    simp only [ne_eq, List.cons_ne_self]
    constructor
    · intro _
      exact Or.inr ⟨hcond.1.1, hcond.1.2⟩
    · intro _
      simp
  case isFalse hcond =>
    rw [classifyIssues_spec]
    simp only [ne_eq, List.map_eq_nil_iff, List.filter_eq_nil_iff]
    constructor
    · intro hne
      left
      push_neg at hne
      obtain ⟨f, hf, hbf⟩ := hne
      exact ⟨f, hf, by simpa using hbf⟩
    · rintro (⟨f, hf, hbf⟩ | ⟨hs, ht⟩)
      · intro hall
        exact absurd hbf (by simpa using hall f hf)
      · intro hall
        apply hcond
        rw [Bool.and_eq_true, Bool.and_eq_true, decide_eq_true_eq, decide_eq_true_eq]
        refine ⟨⟨hs, ht⟩, ?_⟩
        rw [classifyIssues_spec]
        simp only [List.isEmpty_iff, List.map_eq_nil_iff, List.filter_eq_nil_iff]
        intro f hf
        simpa using hall f hf

/-- Every outcome of the post-review gate chain either reports success or
carries no review summary — so it can never coincide with the structured
review rejection (which has `success = false` and a review summary). -/
theorem execTail_shape (cfg : ExecConfig) (io : ExecIO) (targetEnv : String)
    (ps pg : Option Int) (rev : Option ReviewResult) (bpw : List BpWarning) :
    (execTail cfg io targetEnv ps pg rev bpw).success = true ∨
    (execTail cfg io targetEnv ps pg rev bpw).reviewSummary = none := by
  unfold execTail execRun
  split
  · exact Or.inr rfl
  · split
    · split
      · exact Or.inr rfl
      · split
        · exact Or.inr rfl
        · split
          · exact Or.inr rfl
          · exact Or.inl rfl
    · split
      · exact Or.inr rfl
      · split
        · exact Or.inr rfl
        · exact Or.inl rfl

/-- C1 — Past the throttle, the validator and the allow-list, with a
review that did not raise: execution is refused with the structured
rejection (blocking violations, review summary, best-practice warnings,
nothing executed — all data fields absent and `dbExecuted = false`) if and
only if some review finding is blocking (severity `CRITICAL`/`HIGH`,
category not `BEST_PRACTICE`) or the summary is `REJECTED` with top
severity `CRITICAL`; the violations carried are exactly the blocking
findings and the warnings exactly the best-practice findings. -/
theorem claim_C1_review_blocking (cfg : ExecConfig) (acfg : AnalyzerConfig) (io : ExecIO)
    (st st2 : Ledger) (env database : Option String) (user : String) (r : ReviewResult)
    (hacq : throttleAcquire cfg.maxConcurrent cfg.maxPerUser st (env.getD cfg.environment)
      user = some st2)
    (hval : (validate_readonly io.parseResult).1 = true)
    (hallow : allowListBlocked cfg database = false)
    (hrev : io.reviewRaises = false)
    (hr : r = review acfg io.reviewParse io.planStrs io.metaStrs) :
    (((∃ f ∈ r.issues, isBlockingFinding f) ∨
        (r.summary.status = "REJECTED" ∧ r.summary.topSeverity = "CRITICAL")) ↔
      (execute_readonly cfg acfg io st env database user none none).1 =
        { success := false
          error := some "Query blocked due to security or performance violations detected in review"
          blockingViolations := (reviewGate r).1
          reviewSummary := some (summaryOut r)
          bestPracticeWarnings := (reviewGate r).2 }) ∧
    ((reviewGate r).2 =
      (r.issues.filter (fun f => !isBlockingFinding f && f.category = "BEST_PRACTICE")).map
        toBpWarning) ∧
    ((classifyIssues r.issues).1 ≠ [] →
      (reviewGate r).1 = (r.issues.filter isBlockingFinding).map toBlockingViolation) := by
  have hred : (execute_readonly cfg acfg io st env database user none none).1 =
      execBody cfg acfg io (env.getD cfg.environment) database none none := by
    unfold execute_readonly
    simp only [Option.isSome_none, Bool.or_self, Bool.false_eq_true, if_false]
    rw [hacq]
  have hbody : execBody cfg acfg io (env.getD cfg.environment) database none none =
      (if (reviewGate r).1 ≠ [] then
        ({ success := false
           error := some "Query blocked due to security or performance violations detected in review"
           blockingViolations := (reviewGate r).1
           reviewSummary := some (summaryOut r)
           bestPracticeWarnings := (reviewGate r).2 } : ExecResult)
       else execTail cfg io (env.getD cfg.environment) none none (some r) (reviewGate r).2) := by
    unfold execBody
    rw [hval, hallow]
    simp only [hrev, Bool.not_true, Bool.false_eq_true, if_false, ← hr]
  refine ⟨?_, ?_, ?_⟩
  · constructor
    · intro hcond
      have hne := (reviewGate_ne_nil_iff r).mpr hcond
      rw [hred, hbody, if_pos hne]
    · intro heq
      by_contra hncond
      have hnil : ¬((reviewGate r).1 ≠ []) := fun hne =>
        hncond ((reviewGate_ne_nil_iff r).mp hne)
      rw [hred, hbody, if_neg hnil] at heq
      rcases execTail_shape cfg io (env.getD cfg.environment) none none (some r)
          (reviewGate r).2 with hs | hn
      · rw [heq] at hs
        exact absurd hs (by simp)
      · rw [heq] at hn
        exact absurd hn (by simp)
  · rw [reviewGate_snd, classifyIssues_spec]
  · intro hne
    rw [reviewGate_fst_of_ne r hne, classifyIssues_spec]

/-- A call whose rewritten query reviews to a critical rejection
(an unconditional `DELETE`). -/
def ioDeleteReview : ExecIO :=
  { parseResult := .ok [stmtPlainSelect], reviewParse := .ok [stmtDeleteNoWhere]
    reviewRaises := false, planStrs := none, metaStrs := none
    planXmlOk := false, costAllowed := true, nolockResult := .ok ""
    dbRows := .ok [] }

/-- Witness for C1 at a concrete blocked call: the unconditional `DELETE`
review yields blocking findings, and `execute_readonly` returns exactly
the structured rejection. -/
theorem claim_C1_witness :
    (execute_readonly {} {} ioDeleteReview [] none none "alice" none none).1 =
      { success := false
        error := some "Query blocked due to security or performance violations detected in review"
        blockingViolations := (reviewGate (review {} (.ok [stmtDeleteNoWhere]) none none)).1
        reviewSummary := some (summaryOut (review {} (.ok [stmtDeleteNoWhere]) none none))
        bestPracticeWarnings := (reviewGate (review {} (.ok [stmtDeleteNoWhere]) none none)).2 } :=
  ((claim_C1_review_blocking {} {} ioDeleteReview [] [(("Int", "alice"), 1)] none none "alice"
      (review {} (.ok [stmtDeleteNoWhere]) none none)
      rfl rfl rfl rfl rfl).1).mp
    (Or.inr ⟨by decide, by decide⟩)

/-! ### Claim C4: row and byte caps -/

/-- Every successful return of the streaming loop respects both caps
(given a positive row cap): at most `maxRows` rows, and a final byte
estimate within `maxBytes`. -/
theorem fetchStrategyAux_ok (maxRows maxBytes : Nat) (raw : List (List Cell)) :
    ∀ (rows : List (List Cell)) (acc : Nat) (out : List (List Cell)) (payload : Nat),
      fetchStrategyAux maxRows maxBytes raw rows acc = .ok (out, payload) →
      rows.length < maxRows → acc ≤ maxBytes →
      out.length ≤ maxRows ∧ payload ≤ maxBytes := by
  induction raw with
  | nil =>
    intro rows acc out payload h hlen hacc
    unfold fetchStrategyAux at h
    simp only [Except.ok.injEq, Prod.mk.injEq] at h
    obtain ⟨ho, hp⟩ := h
    subst ho hp
    simp only [List.length_reverse]
    omega
  | cons r rest ih =>
    intro rows acc out payload h hlen hacc
    unfold fetchStrategyAux at h
    split at h
    · exact absurd h (by simp)
    case isFalse hbyte =>
      split at h
      case isTrue hrow =>
        simp only [Except.ok.injEq, Prod.mk.injEq] at h
        obtain ⟨ho, hp⟩ := h
        subst ho hp
        simp only [List.length_reverse, List.length_cons]
        omega
      case isFalse hrow =>
        exact ih _ _ _ _ h (by simpa using hrow) (by omega)

theorem fetch_strategy_ok (maxRows maxBytes : Nat) (raw out : List (List Cell)) (payload : Nat)
    (h : fetch_strategy maxRows maxBytes raw = .ok (out, payload)) (hmr : 1 ≤ maxRows) :
    out.length ≤ maxRows ∧ payload ≤ maxBytes :=
  fetchStrategyAux_ok maxRows maxBytes raw [] 0 out payload h (by simpa using hmr) (Nat.zero_le _)

theorem execRun_success_shape (cfg : ExecConfig) (io : ExecIO) (ps pg : Option Int)
    (rev : Option ReviewResult) (bpw : List BpWarning)
    (h : (execRun cfg io ps pg rev bpw).success = true) :
    ∃ raw rows payload,
      io.dbRows = .ok raw ∧
      fetch_strategy cfg.maxRows (cfg.maxPayloadSizeMb * 1024 * 1024) raw = .ok (rows, payload) ∧
      (execRun cfg io ps pg rev bpw).data = some rows ∧
      (execRun cfg io ps pg rev bpw).rowCount = some rows.length ∧
      (execRun cfg io ps pg rev bpw).payloadEstimate = some payload := by
  unfold execRun at h ⊢
  split at h
  · exact absurd h (by simp)
  case _ raw heq =>
    split at h
    · exact absurd h (by simp)
    case _ rows payload heq2 =>
      exact ⟨raw, rows, payload, heq, heq2, rfl, rfl, rfl⟩

theorem execTail_success_shape (cfg : ExecConfig) (io : ExecIO) (targetEnv : String)
    (ps pg : Option Int) (rev : Option ReviewResult) (bpw : List BpWarning)
    (h : (execTail cfg io targetEnv ps pg rev bpw).success = true) :
    ∃ raw rows payload,
      io.dbRows = .ok raw ∧
      fetch_strategy cfg.maxRows (cfg.maxPayloadSizeMb * 1024 * 1024) raw = .ok (rows, payload) ∧
      (execTail cfg io targetEnv ps pg rev bpw).data = some rows ∧
      (execTail cfg io targetEnv ps pg rev bpw).rowCount = some rows.length ∧
      (execTail cfg io targetEnv ps pg rev bpw).payloadEstimate = some payload := by
  unfold execTail at h ⊢
  split at h
  · exact absurd h (by simp)
  case isFalse h1 =>
    split at h
    case isTrue h2 =>
      split at h
      · exact absurd h (by simp)
      case _ q heq =>
        simp only [if_neg h1, if_pos h2, heq]
        exact execRun_success_shape cfg io ps pg rev bpw h
    case isFalse h2 =>
      simp only [if_neg h1, if_neg h2]
      exact execRun_success_shape cfg io ps pg rev bpw h

theorem execBody_success_shape (cfg : ExecConfig) (acfg : AnalyzerConfig) (io : ExecIO)
    (targetEnv : String) (database : Option String) (ps pg : Option Int)
    (h : (execBody cfg acfg io targetEnv database ps pg).success = true) :
    ∃ raw rows payload,
      io.dbRows = .ok raw ∧
      fetch_strategy cfg.maxRows (cfg.maxPayloadSizeMb * 1024 * 1024) raw = .ok (rows, payload) ∧
      (execBody cfg acfg io targetEnv database ps pg).data = some rows ∧
      (execBody cfg acfg io targetEnv database ps pg).rowCount = some rows.length ∧
      (execBody cfg acfg io targetEnv database ps pg).payloadEstimate = some payload := by
  unfold execBody at h ⊢
  split at h
  · exact absurd h (by simp)
  case isFalse h1 =>
    split at h
    · exact absurd h (by simp)
    case isFalse h2 =>
      split at h
      case isTrue h3 =>
        simp only [if_neg h1, if_neg h2, if_pos h3]
        exact execTail_success_shape cfg io targetEnv ps pg none [] h
      case isFalse h3 =>
        split at h
        · exact absurd h (by simp)
        case isFalse h4 =>
          simp only [if_neg h1, if_neg h2, if_neg h3, if_neg h4]
          exact execTail_success_shape cfg io targetEnv ps pg _ _ h

theorem execute_readonly_success_shape (cfg : ExecConfig) (acfg : AnalyzerConfig) (io : ExecIO)
    (st : Ledger) (env database : Option String) (user : String) (ps pg : Option Int)
    (h : (execute_readonly cfg acfg io st env database user ps pg).1.success = true) :
    ∃ raw rows payload,
      io.dbRows = .ok raw ∧
      fetch_strategy cfg.maxRows (cfg.maxPayloadSizeMb * 1024 * 1024) raw = .ok (rows, payload) ∧
      (execute_readonly cfg acfg io st env database user ps pg).1.data = some rows ∧
      (execute_readonly cfg acfg io st env database user ps pg).1.rowCount = some rows.length ∧
      (execute_readonly cfg acfg io st env database user ps pg).1.payloadEstimate = some payload := by
  unfold execute_readonly at h ⊢
  rcases ps with _ | ps' <;> rcases pg with _ | pg' <;>
    simp only [Option.isSome_none, Option.isSome_some, Bool.or_self, Bool.or_true,
      Bool.true_or, Bool.false_eq_true, if_false, if_true] at h ⊢
  · cases hacq : throttleAcquire cfg.maxConcurrent cfg.maxPerUser st (env.getD cfg.environment)
        user with
    | none => rw [hacq] at h; simp at h
    | some st2 =>
      rw [hacq] at h
      dsimp only at h ⊢
      exact execBody_success_shape cfg acfg io _ database none none h
  · split at h
    · exact absurd h (by simp)
    case isFalse hps =>
      split at h
      · exact absurd h (by simp)
      case isFalse hpg =>
        cases hacq : throttleAcquire cfg.maxConcurrent cfg.maxPerUser st
            (env.getD cfg.environment) user with
        | none => rw [hacq] at h; simp at h
        | some st2 =>
          rw [hacq] at h
          rw [if_neg hps, if_neg hpg]
          dsimp only at h ⊢
          exact execBody_success_shape cfg acfg io _ database (some ps') (some pg') h

theorem execRun_fetch_error (cfg : ExecConfig) (io : ExecIO) (ps pg : Option Int)
    (rev : Option ReviewResult) (bpw : List BpWarning) (raw : List (List Cell)) (e : String)
    (hdb : io.dbRows = .ok raw)
    (hfetch : fetch_strategy cfg.maxRows (cfg.maxPayloadSizeMb * 1024 * 1024) raw = .error e) :
    (execRun cfg io ps pg rev bpw).success = false ∧
    (execRun cfg io ps pg rev bpw).data = none := by
  unfold execRun
  rw [hdb]
  dsimp only
  rw [hfetch]
  exact ⟨rfl, rfl⟩

theorem execTail_fetch_error (cfg : ExecConfig) (io : ExecIO) (targetEnv : String)
    (ps pg : Option Int) (rev : Option ReviewResult) (bpw : List BpWarning)
    (raw : List (List Cell)) (e : String)
    (hdb : io.dbRows = .ok raw)
    (hfetch : fetch_strategy cfg.maxRows (cfg.maxPayloadSizeMb * 1024 * 1024) raw = .error e) :
    (execTail cfg io targetEnv ps pg rev bpw).success = false ∧
    (execTail cfg io targetEnv ps pg rev bpw).data = none := by
  unfold execTail
  split
  · exact ⟨rfl, rfl⟩
  · split
    · split
      · exact ⟨rfl, rfl⟩
      · exact execRun_fetch_error cfg io ps pg rev bpw raw e hdb hfetch
    · exact execRun_fetch_error cfg io ps pg rev bpw raw e hdb hfetch

theorem execBody_fetch_error (cfg : ExecConfig) (acfg : AnalyzerConfig) (io : ExecIO)
    (targetEnv : String) (database : Option String) (ps pg : Option Int)
    (raw : List (List Cell)) (e : String)
    (hdb : io.dbRows = .ok raw)
    (hfetch : fetch_strategy cfg.maxRows (cfg.maxPayloadSizeMb * 1024 * 1024) raw = .error e) :
    (execBody cfg acfg io targetEnv database ps pg).success = false ∧
    (execBody cfg acfg io targetEnv database ps pg).data = none := by
  unfold execBody
  split
  · exact ⟨rfl, rfl⟩
  · split
    · exact ⟨rfl, rfl⟩
    · split
      · exact execTail_fetch_error cfg io targetEnv ps pg none [] raw e hdb hfetch
      · split
        · exact ⟨rfl, rfl⟩
        · exact execTail_fetch_error cfg io targetEnv ps pg _ _ raw e hdb hfetch

/-- C4 (amended) — When `execute_readonly` reports success (with a
positive row cap) the returned rows number at most `max_rows`, `row_count`
equals the rows actually returned, and the accumulated byte estimate is at
most `max_payload_mb × 1 MiB`; when the byte cap fires during streaming the
request fails and carries no partial payload.  (No explicit truncation
warning exists: reaching the row cap yields partial data silently — see
the counterexample.) -/
theorem claim_C4_row_byte_caps (cfg : ExecConfig) (acfg : AnalyzerConfig) (io : ExecIO)
    (st : Ledger) (env database : Option String) (user : String) (ps pg : Option Int)
    (hmr : 1 ≤ cfg.maxRows) :
    ((execute_readonly cfg acfg io st env database user ps pg).1.success = true →
      ∃ rows payload,
        (execute_readonly cfg acfg io st env database user ps pg).1.data = some rows ∧
        (execute_readonly cfg acfg io st env database user ps pg).1.rowCount =
          some rows.length ∧
        rows.length ≤ cfg.maxRows ∧
        (execute_readonly cfg acfg io st env database user ps pg).1.payloadEstimate =
          some payload ∧
        payload ≤ cfg.maxPayloadSizeMb * 1024 * 1024) ∧
    (∀ raw e, io.dbRows = .ok raw →
      fetch_strategy cfg.maxRows (cfg.maxPayloadSizeMb * 1024 * 1024) raw = .error e →
      (execute_readonly cfg acfg io st env database user ps pg).1.success = false ∧
      (execute_readonly cfg acfg io st env database user ps pg).1.data = none) := by
  constructor
  · intro h
    obtain ⟨raw, rows, payload, _, hfetch, hdata, hcount, hpay⟩ :=
      execute_readonly_success_shape cfg acfg io st env database user ps pg h
    obtain ⟨hlen, hbytes⟩ := fetch_strategy_ok _ _ raw rows payload hfetch hmr
    exact ⟨rows, payload, hdata, hcount, hlen, hpay, hbytes⟩
  · intro raw e hdb hfetch
    unfold execute_readonly
    rcases ps with _ | ps' <;> rcases pg with _ | pg' <;>
      simp only [Option.isSome_none, Option.isSome_some, Bool.or_self, Bool.or_true,
        Bool.true_or, Bool.false_eq_true, if_false, if_true]
    · cases hacq : throttleAcquire cfg.maxConcurrent cfg.maxPerUser st (env.getD cfg.environment)
          user with
      | none => exact ⟨rfl, rfl⟩
      | some st2 => exact execBody_fetch_error cfg acfg io _ database none none raw e hdb hfetch
    · exact ⟨trivial, trivial⟩
    · exact ⟨trivial, trivial⟩
    · split
      · exact ⟨rfl, rfl⟩
      · split
        · exact ⟨rfl, rfl⟩
        · cases hacq : throttleAcquire cfg.maxConcurrent cfg.maxPerUser st
              (env.getD cfg.environment) user with
          | none => exact ⟨rfl, rfl⟩
          | some st2 =>
            exact execBody_fetch_error cfg acfg io _ database (some ps') (some pg') raw e hdb hfetch

/-- A configuration with a row cap of 2 and the cost gate disabled. -/
def cfgRowCap : ExecConfig := { maxRows := 2, enableCostCheck := false }

/-- A call delivering the given cursor rows, with every other gate
passing. -/
def ioRows (rows : List (List Cell)) : ExecIO :=
  { parseResult := .ok [stmtPlainSelect], reviewParse := .ok [stmtPlainSelect]
    reviewRaises := true, planStrs := none, metaStrs := none
    planXmlOk := false, costAllowed := true, nolockResult := .ok "SELECT 1"
    dbRows := .ok rows }

/-- Counterexample for C4 as stated: with `max_rows = 2` and three rows
available, the response is successful, returns 2 rows — and is **equal in
every field** to the response of a query that naturally produced exactly 2
rows.  No explicit warning marks the truncation, so "partial data together
with an explicit warning in the response" is false. -/
theorem claim_C4_counterexample :
    (execute_readonly cfgRowCap {} (ioRows [[Cell.otherCell], [Cell.otherCell], [Cell.otherCell]])
        [] none none "alice" none none).1 =
      (execute_readonly cfgRowCap {} (ioRows [[Cell.otherCell], [Cell.otherCell]])
        [] none none "alice" none none).1 ∧
    (execute_readonly cfgRowCap {} (ioRows [[Cell.otherCell], [Cell.otherCell], [Cell.otherCell]])
        [] none none "alice" none none).1.success = true ∧
    (execute_readonly cfgRowCap {} (ioRows [[Cell.otherCell], [Cell.otherCell], [Cell.otherCell]])
        [] none none "alice" none none).1.rowCount = some 2 ∧
    (ioRows [[Cell.otherCell], [Cell.otherCell], [Cell.otherCell]]).dbRows =
      .ok [[Cell.otherCell], [Cell.otherCell], [Cell.otherCell]] := by
  refine ⟨by decide, by decide, by decide, rfl⟩

/-- A configuration whose payload cap is zero bytes, firing the byte cap
on the first row. -/
def cfgByteCap : ExecConfig := { maxRows := 2, maxPayloadSizeMb := 0, enableCostCheck := false }

/-- Witness for C4 (amended), at concrete runs: a successful call respects
both caps, and a byte-capped call fails with no partial payload. -/
theorem claim_C4_witness :
    (∃ rows payload,
      (execute_readonly cfgRowCap {} (ioRows [[Cell.otherCell], [Cell.otherCell], [Cell.otherCell]])
          [] none none "alice" none none).1.data = some rows ∧
      (execute_readonly cfgRowCap {} (ioRows [[Cell.otherCell], [Cell.otherCell], [Cell.otherCell]])
          [] none none "alice" none none).1.rowCount = some rows.length ∧
      rows.length ≤ cfgRowCap.maxRows ∧
      (execute_readonly cfgRowCap {} (ioRows [[Cell.otherCell], [Cell.otherCell], [Cell.otherCell]])
          [] none none "alice" none none).1.payloadEstimate = some payload ∧
      payload ≤ cfgRowCap.maxPayloadSizeMb * 1024 * 1024) ∧
    ((execute_readonly cfgByteCap {} (ioRows [[Cell.otherCell]]) [] none none "alice"
        none none).1.success = false ∧
     (execute_readonly cfgByteCap {} (ioRows [[Cell.otherCell]]) [] none none "alice"
        none none).1.data = none) :=
  ⟨(claim_C4_row_byte_caps cfgRowCap {} (ioRows [[Cell.otherCell], [Cell.otherCell], [Cell.otherCell]])
      [] none none "alice" none none (by decide)).1 (by decide),
   (claim_C4_row_byte_caps cfgByteCap {} (ioRows [[Cell.otherCell]]) [] none none "alice"
      none none (by decide)).2 [[Cell.otherCell]]
      "Query result too large (exceeded the payload size limit). Please refine your filters."
      rfl rfl⟩

/-! ### Claim C8: throttle ledger invariants -/

/-- Dict semantics: unique keys. -/
def NodupKeys (st : Ledger) : Prop := (st.map Prod.fst).Nodup

theorem lcount_setK_self (st : Ledger) (k : ThrottleKey) (v : Int) :
    lcount (setK st k v) k = v := by
  induction st with
  | nil => simp [setK, lcount]
  | cons kv t ih =>
    obtain ⟨k', v'⟩ := kv
    by_cases h : k' = k <;> simp [setK, h, lcount, ih]

theorem lcount_setK_ne (st : Ledger) (k k' : ThrottleKey) (v : Int) (h : k' ≠ k) :
    lcount (setK st k v) k' = lcount st k' := by
  have hkk : ¬(k = k') := fun he => h he.symm
  induction st with
  | nil => simp [setK, lcount, hkk]
  | cons kv t ih =>
    obtain ⟨k0, v0⟩ := kv
    by_cases h0 : k0 = k
    · subst h0
      simp [setK, lcount, hkk]
    · by_cases h1 : k0 = k' <;> simp [setK, h0, h1, lcount, ih, h]

theorem lcount_eq_zero_of_not_mem (st : Ledger) (k : ThrottleKey)
    (h : k ∉ st.map Prod.fst) : lcount st k = 0 := by
  induction st with
  | nil => rfl
  | cons kv t ih =>
    obtain ⟨k0, v0⟩ := kv
    simp only [List.map_cons, List.mem_cons] at h
    push_neg at h
    have h0 : ¬(k0 = k) := fun he => h.1 he.symm
    simp [lcount, h0, ih h.2]

/-- The first occurrence of a present key carries its `lcount` value. -/
theorem lcount_mem (st : Ledger) (k : ThrottleKey) (h : k ∈ st.map Prod.fst) :
    (k, lcount st k) ∈ st := by
  induction st with
  | nil => simp at h
  | cons kv t ih =>
    obtain ⟨k0, v0⟩ := kv
    by_cases h0 : k0 = k
    · subst h0
      simp [lcount]
    · simp only [List.map_cons, List.mem_cons] at h
      rcases h with h | h
      · exact absurd h.symm h0
      · simp only [lcount, if_neg h0]
        exact List.mem_cons_of_mem _ (ih h)

theorem setK_of_not_mem (st : Ledger) (k : ThrottleKey) (v : Int)
    (h : k ∉ st.map Prod.fst) : setK st k v = st ++ [(k, v)] := by
  induction st with
  | nil => rfl
  | cons kv t ih =>
    obtain ⟨k0, v0⟩ := kv
    simp only [List.map_cons, List.mem_cons] at h
    push_neg at h
    have h0 : ¬(k0 = k) := fun he => h.1 he.symm
    simp [setK, h0, ih h.2]

theorem eraseK_append_self (st : Ledger) (k : ThrottleKey) (v : Int)
    (h : k ∉ st.map Prod.fst) : eraseK (st ++ [(k, v)]) k = st := by
  induction st with
  | nil => simp [eraseK]
  | cons kv t ih =>
    obtain ⟨k0, v0⟩ := kv
    simp only [List.map_cons, List.mem_cons] at h
    push_neg at h
    have h0 : ¬(k0 = k) := fun he => h.1 he.symm
    simp [eraseK, h0, ih h.2]

theorem setK_setK (st : Ledger) (k : ThrottleKey) (v w : Int) :
    setK (setK st k v) k w = setK st k w := by
  induction st with
  | nil => simp [setK]
  | cons kv t ih =>
    obtain ⟨k0, v0⟩ := kv
    by_cases h : k0 = k <;> simp [setK, h, ih]

theorem setK_lcount_self (st : Ledger) (k : ThrottleKey) (h : lcount st k ≠ 0) :
    setK st k (lcount st k) = st := by
  induction st with
  | nil => exact absurd rfl h
  | cons kv t ih =>
    obtain ⟨k0, v0⟩ := kv
    by_cases h0 : k0 = k
    · subst h0
      simp [setK, lcount]
    · simp only [lcount, if_neg h0] at h
      simp [setK, h0, lcount, if_neg h0, ih h]

theorem keys_setK (st : Ledger) (k : ThrottleKey) (v : Int) :
    (setK st k v).map Prod.fst =
      (if k ∈ st.map Prod.fst then st.map Prod.fst else st.map Prod.fst ++ [k]) := by
  induction st with
  | nil => simp [setK]
  | cons kv t ih =>
    obtain ⟨k0, v0⟩ := kv
    by_cases h : k0 = k
    · subst h
      simp [setK]
    · have hkk : ¬(k = k0) := fun he => h he.symm
      simp only [setK, if_neg h, List.map_cons, ih, List.mem_cons]
      by_cases hm : k ∈ t.map Prod.fst <;> simp [hm, hkk]

theorem nodupKeys_setK (st : Ledger) (k : ThrottleKey) (v : Int)
    (h : NodupKeys st) : NodupKeys (setK st k v) := by
  unfold NodupKeys at h ⊢
  rw [keys_setK]
  by_cases hm : k ∈ st.map Prod.fst
  · simpa [hm] using h
  · rw [if_neg hm, List.nodup_append]
    refine ⟨h, List.nodup_singleton _, ?_⟩
    intro a ha hak
    rw [List.mem_singleton] at hak
    exact hm (hak ▸ ha)

theorem mem_keys_eraseK (st : Ledger) (k k0 : ThrottleKey)
    (h : k0 ∈ (eraseK st k).map Prod.fst) : k0 ∈ st.map Prod.fst := by
  induction st with
  | nil => simpa [eraseK] using h
  | cons kv t ih =>
    obtain ⟨k1, v1⟩ := kv
    by_cases h1 : k1 = k
    · subst h1
      simp only [eraseK, if_pos rfl] at h
      exact List.mem_cons_of_mem _ h
    · simp only [eraseK, if_neg h1, List.map_cons, List.mem_cons] at h ⊢
      rcases h with h | h
      · exact Or.inl h
      · exact Or.inr (ih h)

theorem nodupKeys_eraseK (st : Ledger) (k : ThrottleKey)
    (h : NodupKeys st) : NodupKeys (eraseK st k) := by
  unfold NodupKeys at h ⊢
  induction st with
  | nil => simpa [eraseK] using h
  | cons kv t ih =>
    obtain ⟨k1, v1⟩ := kv
    simp only [List.map_cons, List.nodup_cons] at h
    by_cases h1 : k1 = k
    · simpa [eraseK, h1] using h.2
    · simp only [eraseK, if_neg h1, List.map_cons, List.nodup_cons]
      exact ⟨fun hm => h.1 (mem_keys_eraseK t k k1 hm), ih h.2⟩

theorem mem_setK (st : Ledger) (k : ThrottleKey) (v : Int) (kc : ThrottleKey × Int)
    (h : kc ∈ setK st k v) : kc ∈ st ∨ kc = (k, v) := by
  induction st with
  | nil =>
    right
    simpa [setK] using h
  | cons kv t ih =>
    obtain ⟨k1, v1⟩ := kv
    by_cases h1 : k1 = k
    · subst h1
      simp only [setK, eq_self_iff_true, if_true, List.mem_cons] at h
      rcases h with hc | hc
      · exact Or.inr hc
      · exact Or.inl (List.mem_cons_of_mem _ hc)
    · simp only [setK, if_neg h1, List.mem_cons] at h
      rcases h with hc | hc
      · exact Or.inl (hc ▸ List.mem_cons_self ..)
      · rcases ih hc with h2 | h2
        · exact Or.inl (List.mem_cons_of_mem _ h2)
        · exact Or.inr h2

theorem mem_eraseK (st : Ledger) (k : ThrottleKey) (kc : ThrottleKey × Int)
    (h : kc ∈ eraseK st k) : kc ∈ st := by
  induction st with
  | nil => simpa [eraseK] using h
  | cons kv t ih =>
    obtain ⟨k1, v1⟩ := kv
    by_cases h1 : k1 = k
    · subst h1
      simp only [eraseK, if_pos rfl] at h
      exact List.mem_cons_of_mem _ h
    · simp only [eraseK, if_neg h1, List.mem_cons] at h ⊢
      rcases h with h | h
      · exact Or.inl h
      · exact Or.inr (ih h)

theorem lcount_eraseK_self (st : Ledger) (k : ThrottleKey) (h : NodupKeys st) :
    lcount (eraseK st k) k = 0 := by
  induction st with
  | nil => rfl
  | cons kv t ih =>
    obtain ⟨k1, v1⟩ := kv
    unfold NodupKeys at h
    simp only [List.map_cons, List.nodup_cons] at h
    by_cases h1 : k1 = k
    · subst h1
      simp only [eraseK, if_pos rfl]
      exact lcount_eq_zero_of_not_mem t k1 h.1
    · simp only [eraseK, if_neg h1, lcount, if_neg h1]
      exact ih h.2

theorem lcount_eraseK_ne (st : Ledger) (k k' : ThrottleKey) (h : k' ≠ k) :
    lcount (eraseK st k) k' = lcount st k' := by
  induction st with
  | nil => rfl
  | cons kv t ih =>
    obtain ⟨k1, v1⟩ := kv
    by_cases h1 : k1 = k
    · subst h1
      have hkk : ¬(k1 = k') := fun he => h he.symm
      simp [eraseK, lcount, hkk]
    · by_cases h2 : k1 = k' <;> simp [eraseK, h1, h2, lcount, ih, h]

theorem envSum_setK (st : Ledger) (k : ThrottleKey) (v : Int) (e : String) :
    envSum (setK st k v) e = envSum st e + (if k.1 = e then v - lcount st k else 0) := by
  induction st with
  | nil =>
    by_cases he : k.1 = e <;> simp [setK, envSum, lcount, he]
  | cons kv t ih =>
    obtain ⟨k0, v0⟩ := kv
    by_cases h : k0 = k
    · subst h
      by_cases he : k0.1 = e <;> simp [setK, envSum, lcount, he] <;> ring
    · simp only [setK, if_neg h, envSum, ih, lcount, if_neg h]
      ring

theorem envSum_eraseK (st : Ledger) (k : ThrottleKey) (e : String) :
    envSum (eraseK st k) e = envSum st e - (if k.1 = e then lcount st k else 0) := by
  induction st with
  | nil =>
    by_cases he : k.1 = e <;> simp [eraseK, envSum, lcount, he]
  | cons kv t ih =>
    obtain ⟨k0, v0⟩ := kv
    by_cases h : k0 = k
    · subst h
      by_cases he : k0.1 = e <;> simp [eraseK, envSum, lcount, he] <;> ring
    · simp only [eraseK, if_neg h, envSum, ih, lcount, if_neg h]
      ring

theorem countP_erase (p : ThrottleKey → Bool) (fl : List ThrottleKey) (k : ThrottleKey) :
    (fl.erase k).countP p = fl.countP p - (if k ∈ fl ∧ p k then 1 else 0) := by
  induction fl with
  | nil => simp
  | cons a t ih =>
    by_cases h : a = k
    · subst h
      rw [List.erase_cons_head, List.countP_cons]
      by_cases hp : p a <;> simp [hp]
    · have hkk : ¬(k = a) := fun he => h he.symm
      rw [List.erase_cons_tail (by simpa using h), List.countP_cons,
        List.countP_cons, ih]
      by_cases hm : k ∈ t
      · by_cases hp : p k = true
        · have hone : 1 ≤ t.countP p := List.countP_pos_iff.2 ⟨k, hm, hp⟩
          simp only [hm, hp, and_self, if_true, List.mem_cons, hkk, false_or, true_and]
          omega
        · simp [hm, hp, hkk]
      · simp [hm, hkk]


inductive ThrottleReach (maxC maxU : Int) : Ledger → List ThrottleKey → Prop
  | init : ThrottleReach maxC maxU [] []
  | acquire (st : Ledger) (fl : List ThrottleKey) (st2 : Ledger) (env user : String) :
      ThrottleReach maxC maxU st fl →
      throttleAcquire maxC maxU st env user = some st2 →
      ThrottleReach maxC maxU st2 ((env, user) :: fl)
  | release (st : Ledger) (fl : List ThrottleKey) (env user : String) :
      ThrottleReach maxC maxU st fl →
      (env, user) ∈ fl →
      ThrottleReach maxC maxU (throttleRelease st env user) (fl.erase (env, user))

def ThrottleInv (maxC maxU : Int) (st : Ledger) (fl : List ThrottleKey) : Prop :=
  NodupKeys st ∧ (∀ kv ∈ st, kv.2 ≠ 0) ∧
  (∀ k : ThrottleKey, lcount st k = (fl.count k : Int)) ∧
  (∀ e : String, envSum st e = ((fl.countP (fun q => q.1 == e)) : Int)) ∧
  (∀ e : String, envSum st e ≤ maxC) ∧
  (∀ k : ThrottleKey, lcount st k ≤ maxU)

theorem throttleAcquire_some (maxC maxU : Int) (st st2 : Ledger) (env user : String)
    (h : throttleAcquire maxC maxU st env user = some st2) :
    envSum st env < maxC ∧ lcount st (env, user) < maxU ∧
    st2 = setK st (env, user) (lcount st (env, user) + 1) := by
  unfold throttleAcquire at h
  by_cases h1 : envSum st env ≥ maxC
  · simp [h1] at h
  · by_cases h2 : lcount st (env, user) ≥ maxU
    · simp [h1, h2] at h
    · simp only [if_neg h1, if_neg h2, Option.some.injEq] at h
      exact ⟨lt_of_not_ge h1, lt_of_not_ge h2, h.symm⟩

theorem throttleInv_reach (maxC maxU : Int) (h1 : 0 ≤ maxC) (h2 : 0 ≤ maxU)
    (st : Ledger) (fl : List ThrottleKey)
    (hr : ThrottleReach maxC maxU st fl) : ThrottleInv maxC maxU st fl := by
  induction hr with
  | init =>
    exact ⟨List.nodup_nil, by simp, fun k => by simp [lcount],
      fun e => by simp [envSum], fun e => by simpa [envSum] using h1,
      fun k => by simpa [lcount] using h2⟩
  | acquire st fl st2 env user hr hacq ih =>
    obtain ⟨hlt, hult, hst2⟩ := throttleAcquire_some _ _ _ _ _ _ hacq
    obtain ⟨hnd, hnz, hcnt, hsum, hbc, hbu⟩ := ih
    subst hst2
    refine ⟨nodupKeys_setK _ _ _ hnd, ?_, ?_, ?_, ?_, ?_⟩
    · intro kv hm
      rcases mem_setK _ _ _ _ hm with hin | heq
      · exact hnz kv hin
      · subst heq
        show lcount st (env, user) + 1 ≠ 0
        rw [hcnt]
        omega
    · intro k
      by_cases hk : k = (env, user)
      · subst hk
        rw [lcount_setK_self, hcnt, List.count_cons_self]
        omega
      · rw [lcount_setK_ne _ _ _ _ hk, hcnt, List.count_cons_of_ne hk]
    · intro e
      by_cases he : env = e
      · subst he
        simp only [envSum_setK, hsum env, List.countP_cons]
        simp
      · simp only [envSum_setK, hsum e, List.countP_cons]
        simp [he]
    · intro e
      by_cases he : env = e
      · subst he
        rw [envSum_setK, if_pos rfl]
        have hb := hbc env
        omega
      · rw [envSum_setK, if_neg he]
        have hb := hbc e
        omega
    · intro k
      by_cases hk : k = (env, user)
      · subst hk
        rw [lcount_setK_self]
        omega
      · rw [lcount_setK_ne _ _ _ _ hk]
        exact hbu k
  | release st fl env user hr hmem ih =>
    obtain ⟨hnd, hnz, hcnt, hsum, hbc, hbu⟩ := ih
    have hcpos : 1 ≤ fl.count (env, user) := List.count_pos_iff.2 hmem
    unfold throttleRelease
    by_cases hz : lcount st (env, user) - 1 = 0
    · rw [if_pos hz]
      have hcount1 : fl.count (env, user) = 1 := by
        have hc := hcnt (env, user)
        omega
      refine ⟨nodupKeys_eraseK _ _ hnd, ?_, ?_, ?_, ?_, ?_⟩
      · intro kv hm
        exact hnz kv (mem_eraseK _ _ _ hm)
      · intro k
        by_cases hk : k = (env, user)
        · subst hk
          rw [lcount_eraseK_self _ _ hnd, List.count_erase_self, hcount1]
          simp
        · rw [lcount_eraseK_ne _ _ _ hk, hcnt, List.count_erase_of_ne hk]
      · intro e
        by_cases he : env = e
        · subst he
          have hp : (((env, user) : ThrottleKey).1 == env) = true := by simp
          have hpos : 1 ≤ fl.countP (fun q => q.1 == env) :=
            List.countP_pos_iff.2 ⟨(env, user), hmem, hp⟩
          rw [envSum_eraseK, if_pos rfl, countP_erase, hsum env]
          have hc := hcnt (env, user)
          simp only [hmem, hp, and_self, if_true]
          omega
        · have hp : (((env, user) : ThrottleKey).1 == e) = false := by simpa using he
          rw [envSum_eraseK, if_neg he, countP_erase, hsum e]
          simp [hp]
      · intro e
        rw [envSum_eraseK]
        have hb := hbc e
        have hc := hcnt (env, user)
        by_cases he : env = e
        · rw [if_pos he]
          omega
        · rw [if_neg he]
          omega
      · intro k
        by_cases hk : k = (env, user)
        · subst hk
          rw [lcount_eraseK_self _ _ hnd]
          exact h2
        · rw [lcount_eraseK_ne _ _ _ hk]
          exact hbu k
    · rw [if_neg hz]
      have hc := hcnt (env, user)
      refine ⟨nodupKeys_setK _ _ _ hnd, ?_, ?_, ?_, ?_, ?_⟩
      · intro kv hm
        rcases mem_setK _ _ _ _ hm with hin | heq
        · exact hnz kv hin
        · subst heq
          show lcount st (env, user) - 1 ≠ 0
          exact hz
      · intro k
        by_cases hk : k = (env, user)
        · subst hk
          rw [lcount_setK_self, List.count_erase_self]
          omega
        · rw [lcount_setK_ne _ _ _ _ hk, hcnt, List.count_erase_of_ne hk]
      · intro e
        by_cases he : env = e
        · subst he
          have hp : (((env, user) : ThrottleKey).1 == env) = true := by simp
          have hpos : 1 ≤ fl.countP (fun q => q.1 == env) :=
            List.countP_pos_iff.2 ⟨(env, user), hmem, hp⟩
          rw [envSum_setK, if_pos rfl, countP_erase, hsum env]
          simp only [hmem, hp, and_self, if_true]
          omega
        · have hp : (((env, user) : ThrottleKey).1 == e) = false := by simpa using he
          rw [envSum_setK, if_neg he, countP_erase, hsum e]
          simp [hp]
      · intro e
        rw [envSum_setK]
        have hb := hbc e
        by_cases he : env = e
        · rw [if_pos he]
          omega
        · rw [if_neg he]
          omega
      · intro k
        by_cases hk : k = (env, user)
        · subst hk
          rw [lcount_setK_self]
          have hb := hbu (env, user)
          omega
        · rw [lcount_setK_ne _ _ _ _ hk]
          exact hbu k

theorem throttleRelease_setK (st : Ledger) (env user : String)
    (hnd : NodupKeys st) (hnz : ∀ kv ∈ st, kv.2 ≠ 0) :
    throttleRelease (setK st (env, user) (lcount st (env, user) + 1)) env user = st := by
  unfold throttleRelease
  rw [lcount_setK_self]
  by_cases hz : lcount st (env, user) + 1 - 1 = 0
  · rw [if_pos hz]
    have hc0 : lcount st (env, user) = 0 := by omega
    have hnm : (env, user) ∉ st.map Prod.fst := by
      intro hm
      exact hnz _ (lcount_mem st (env, user) hm) hc0
    rw [setK_of_not_mem _ _ _ hnm]
    exact eraseK_append_self _ _ _ hnm
  · rw [if_neg hz]
    have hc0 : lcount st (env, user) ≠ 0 := by omega
    rw [setK_setK]
    have he : lcount st (env, user) + 1 - 1 = lcount st (env, user) := by ring
    rw [he]
    exact setK_lcount_self _ _ hc0

/-- On every exit path, the ledger returned by `execute_readonly` equals the
ledger it was given: a slot acquired by the throttler is always released by
the `finally` block, and a failed acquisition changes nothing. -/
theorem execute_readonly_ledger (cfg : ExecConfig) (acfg : AnalyzerConfig) (io : ExecIO)
    (st : Ledger) (env database : Option String) (user : String) (ps pg : Option Int)
    (hnd : NodupKeys st) (hnz : ∀ kv ∈ st, kv.2 ≠ 0) :
    (execute_readonly cfg acfg io st env database user ps pg).2 = st := by
  have hrel : ∀ st2, throttleAcquire cfg.maxConcurrent cfg.maxPerUser st
      (env.getD cfg.environment) user = some st2 →
      throttleRelease st2 (env.getD cfg.environment) user = st := by
    intro st2 hacq
    obtain ⟨-, -, hst2⟩ := throttleAcquire_some _ _ _ _ _ _ hacq
    rw [hst2]
    exact throttleRelease_setK st _ user hnd hnz
  unfold execute_readonly
  rcases ps with _ | ps1 <;> rcases pg with _ | pg1 <;>
    simp only [Option.isSome_none, Option.isSome_some, Bool.or_self, Bool.or_true,
      Bool.true_or, Bool.false_eq_true, if_false, if_true]
  · cases hacq : throttleAcquire cfg.maxConcurrent cfg.maxPerUser st (env.getD cfg.environment)
        user with
    | none => rfl
    | some st2 =>
      dsimp only
      exact hrel st2 hacq
  · split
    · rfl
    · split
      · rfl
      · cases hacq : throttleAcquire cfg.maxConcurrent cfg.maxPerUser st
            (env.getD cfg.environment) user with
        | none => rfl
        | some st2 =>
          dsimp only
          exact hrel st2 hacq

/-- C8 — at every state of the throttle ledger reachable (from the empty
ledger, with non-negative limits) by the acquire/release transitions of
`ConcurrencyThrottler`, every per-(environment, user) counter is
non-negative, the per-environment sum of counters is at most
`max_concurrent_queries`, and every per-user counter is at most
`max_concurrent_queries_per_user`; moreover `execute_readonly` returns the
ledger it started from on every exit path (error responses, rejected
queries, execution failures and successes alike): an acquired slot is
always released. -/
theorem claim_C8_throttle_invariant (maxC maxU : Int) (h1 : 0 ≤ maxC) (h2 : 0 ≤ maxU)
    (st : Ledger) (fl : List ThrottleKey)
    (hr : ThrottleReach maxC maxU st fl) :
    (∀ k : ThrottleKey, 0 ≤ lcount st k) ∧
    (∀ e : String, envSum st e ≤ maxC) ∧
    (∀ k : ThrottleKey, lcount st k ≤ maxU) ∧
    (∀ (cfg : ExecConfig) (acfg : AnalyzerConfig) (io : ExecIO)
        (env database : Option String) (user : String) (ps pg : Option Int),
      (execute_readonly cfg acfg io st env database user ps pg).2 = st) := by
  obtain ⟨hnd, hnz, hcnt, hsum, hbc, hbu⟩ := throttleInv_reach maxC maxU h1 h2 st fl hr
  refine ⟨?_, hbc, hbu, ?_⟩
  · intro k
    rw [hcnt]
    omega
  · intro cfg acfg io env database user ps pg
    exact execute_readonly_ledger cfg acfg io st env database user ps pg hnd hnz

/-- Witness for C8 at a concrete reachable state: one slot held by
`("Int", "alice")` under the default limits 5 and 2. -/
theorem claim_C8_witness :
    ThrottleReach 5 2 [(("Int", "alice"), 1)] [("Int", "alice")] ∧
    ((∀ k : ThrottleKey, 0 ≤ lcount [(("Int", "alice"), 1)] k) ∧
     (∀ e : String, envSum [(("Int", "alice"), 1)] e ≤ 5) ∧
     (∀ k : ThrottleKey, lcount [(("Int", "alice"), 1)] k ≤ 2) ∧
     (∀ (cfg : ExecConfig) (acfg : AnalyzerConfig) (io : ExecIO)
         (env database : Option String) (user : String) (ps pg : Option Int),
       (execute_readonly cfg acfg io [(("Int", "alice"), 1)] env database user ps pg).2 =
         [(("Int", "alice"), 1)])) :=
  have hreach : ThrottleReach 5 2 [(("Int", "alice"), 1)] [("Int", "alice")] :=
    ThrottleReach.acquire [] [] [(("Int", "alice"), 1)] "Int" "alice"
      ThrottleReach.init (by decide)
  ⟨hreach, claim_C8_throttle_invariant 5 2 (by decide) (by decide) _ _ hreach⟩

/-! ### Claim C7: the three SQL rewriters and their idempotence -/

/-- List-level Python `str.strip()`. -/
def pyStripL (l : List Char) : List Char := dropTrail pyIsWs (l.dropWhile pyIsWs)

/-- List-level Python `str.upper()`. -/
def pyUpperL (l : List Char) : List Char := l.map pyUpperChar

/-! #### `NolockInjector.inject_nolock_hints` (AST level)

`sqlglot` objects are embedded by the attributes the code reads: a table
hint expression (`exp.Var` or not, with its name), a `WithTableHint` node
holding a list of hint expressions, and a table with its `hints` arg. -/

/-- One expression inside a `WithTableHint` (`exp.Var` when `isVar`). -/
structure TableHintExpr where
  isVar : Bool
  name : String
deriving DecidableEq, Repr

/-- `exp.WithTableHint`. -/
structure WithTableHint where
  expressions : List TableHintExpr
deriving DecidableEq, Repr

/-- A table reference with its `hints` arg (`table.args.get("hints")`;
the empty list models an absent/falsy value). -/
structure TableAst where
  hints : List WithTableHint
deriving DecidableEq, Repr

/-- `exp.Var(this="NOLOCK")`. -/
def nolockVar : TableHintExpr := ⟨true, "NOLOCK"⟩

/-- The `has_nolock` scan: some hint node has an `exp.Var` expression whose
name upper-cases to `"NOLOCK"`. -/
def tableHasNolock (t : TableAst) : Bool :=
  t.hints.any fun n => n.expressions.any fun e => e.isVar && (pyUpper e.name == "NOLOCK")

/-- The body of the `for table in parsed.find_all(exp.Table)` loop. -/
def injectTable (t : TableAst) : TableAst :=
  match t.hints with
  | [] => ⟨[⟨[nolockVar]⟩]⟩
  | h0 :: rest =>
    if tableHasNolock t then t
    else ⟨⟨h0.expressions ++ [nolockVar]⟩ :: rest⟩

/-- `inject_nolock_hints`, acting on the list of table references of the
parsed query. -/
def inject_nolock_hints (ts : List TableAst) : List TableAst := ts.map injectTable

/-! #### `ExecutionService._apply_pagination` (AST level) -/

/-- The attributes of a parsed `exp.Select` that `_apply_pagination` reads
and writes: the top-level `order`/`offset`/`fetch` args, plus whether a
descendant (subquery) contains such a clause (`select_stmt.find` searches
the whole subtree). -/
structure SelectAst where
  topOrder : Option Int
  topOffset : Option Int
  topFetch : Option Int
  innerOrder : Bool
  innerOffset : Bool
  innerFetch : Bool
deriving DecidableEq, Repr

/-- Outcome of `sqlglot.parse` + the two early-return checks: parse
failure, empty result or a non-`SELECT` first statement all return the
original query. -/
inductive ParsedQuery
  | notSelect
  | selectQ (s : SelectAst)
deriving DecidableEq, Repr

/-- `select_stmt.find(exp.Offset)` (truthy). -/
def findOffset (s : SelectAst) : Bool := s.topOffset.isSome || s.innerOffset

/-- `select_stmt.find(exp.Fetch)` (truthy). -/
def findFetch (s : SelectAst) : Bool := s.topFetch.isSome || s.innerFetch

/-- `select_stmt.find(exp.Order)` (truthy). -/
def findOrder (s : SelectAst) : Bool := s.topOrder.isSome || s.innerOrder

/-- `_apply_pagination` on the parsed query. -/
def apply_pagination (q : ParsedQuery) (pageSize page : Int) : ParsedQuery :=
  match q with
  | .notSelect => .notSelect
  | .selectQ s =>
    if findOffset s || findFetch s then .selectQ s
    else
      .selectQ { s with
        topOrder := if findOrder s then s.topOrder else some 1
        topOffset := some ((page - 1) * pageSize)
        topFetch := some pageSize }

/-! #### `ResourceControlInjector.inject_resource_hints` (string level)

The one regular expression of the code,
`\bOPTION\s*\([^)]*\)\s*;?\s*$` (IGNORECASE), is implemented as a
leftmost-position scanner: `rcMatchAt` matches the pattern minus `\b` at
the head of a suffix, `rcFindAux` scans positions left to right keeping
the `\b` test on the previous character. -/

/-- `\b` before a word character: the previous character, if any, is not a
word character. -/
def rcBoundary : Option Char → Bool
  | none => true
  | some c => !isWordChar c

/-- The character preceding the current scan position: last of `a`, or the
initial `p` when `a` is empty. -/
def prevOf : Option Char → List Char → Option Char
  | p, [] => p
  | _, c :: t => prevOf (some c) t

/-- Case-insensitive literal keyword match (expected word given upper-case);
returns the rest of the input. -/
def ciKeyword : List Char → List Char → Option (List Char)
  | [], s => some s
  | _ :: _, [] => none
  | e :: es, c :: cs => if pyUpperChar c = e then ciKeyword es cs else none

/-- The regex tail `\s*;?\s*$`. -/
def rcTailOk (l : List Char) : Bool :=
  match l.dropWhile pyIsWs with
  | [] => true
  | ';' :: r => (r.dropWhile pyIsWs).isEmpty
  | _ => false

/-- `OPTION\s*\([^)]*\)\s*;?\s*$` matched at the head of `s`; returns the
text inside the parentheses (which the pattern keeps free of `)`). -/
def rcMatchAt (s : List Char) : Option (List Char) :=
  match ciKeyword ['O','P','T','I','O','N'] s with
  | none => none
  | some r1 =>
    match r1.dropWhile pyIsWs with
    | [] => none
    | x :: r3 =>
      if x = '(' then
        match r3.dropWhile (fun c => !(c == ')')) with
        | [] => none
        | y :: r4 =>
          if y = ')' then
            if rcTailOk r4 then some (r3.takeWhile (fun c => !(c == ')'))) else none
          else none
      else none

/-- `re.search` of the pattern: leftmost matching position (with the word
boundary); returns the text before the match and the parenthesised
content. -/
def rcFindAux : Option Char → List Char → Option (List Char × List Char)
  | _, [] => none
  | prev, c :: t =>
    match (if rcBoundary prev then rcMatchAt (c :: t) else none) with
    | some content => some ([], content)
    | none =>
      match rcFindAux (some c) t with
      | some (p, content) => some (c :: p, content)
      | none => none

/-- Python `", ".join`. -/
def joinSep : List (List Char) → List Char
  | [] => []
  | [p] => p
  | p :: ps => p ++ ',' :: ' ' :: joinSep ps

/-- `[h.strip() for h in existing_hints_str.split(',')]`. -/
def rcExisting (content : List Char) : List (List Char) :=
  (splitOnChar ',' content).map pyStripL

/-- The `hints` list built from the `has_maxdop` / `has_max_grant` scans
(`'MAXDOP' in h.upper()`, `'MAX_GRANT_PERCENT' in h.upper()`). -/
def rcNewHints (existing : List (List Char)) (maxdop mgp : Nat) : List (List Char) :=
  (if existing.any (fun h => hasSub ("MAXDOP".data) (pyUpperL h)) then []
   else [("MAXDOP ".data) ++ (Nat.repr maxdop).data]) ++
  (if existing.any (fun h => hasSub ("MAX_GRANT_PERCENT".data) (pyUpperL h)) then []
   else [("MAX_GRANT_PERCENT = ".data) ++ (Nat.repr mgp).data])

/-- `re.sub(option_pattern, '', query_clean, flags=re.IGNORECASE).strip()`:
the pattern is end-anchored, so at most the leftmost match is removed. -/
def rcQwo (qc : List Char) : List Char :=
  match rcFindAux none qc with
  | some (p, _) => pyStripL p
  | none => pyStripL qc

/-- `ResourceControlInjector.inject_resource_hints`.  `query_upper` is
searched for the OPTION pattern; on a match the parenthesised content is
split into hint pieces and missing `MAXDOP` / `MAX_GRANT_PERCENT` hints are
merged in (returning the input untouched when nothing is missing); without
a match the two hints are appended to the cleaned query.  (The inner
`re.search(r'OPTION\s*\((.*?)\)', ...)` of the code always succeeds on the
matched text and yields exactly the parenthesised content, which
`rcFindAux` returns directly; the `except` branch is unreachable in this
pure setting.)  `env` is only logged. -/
def inject_resource_hints (query env : String) (maxdop mgp : Nat) : String :=
  match rcFindAux none (pyStripL (pyUpperL query.data)) with
  | none =>
    ⟨pyStripL (pyRstripSemi query).data ++ (" OPTION (".data ++
      joinSep (rcNewHints [] maxdop mgp) ++ [')'])⟩
  | some (_, content) =>
    match rcNewHints (rcExisting content) maxdop mgp with
    | [] => query
    | h :: t =>
      ⟨rcQwo (pyStripL (pyRstripSemi query).data) ++ (" OPTION (".data ++
        joinSep (rcExisting content ++ h :: t) ++ [')'])⟩

theorem injectTable_idem (t : TableAst) : injectTable (injectTable t) = injectTable t := by
  have hNL : tableHasNolock ⟨[⟨[nolockVar]⟩]⟩ = true := by decide
  match ht : t.hints with
  | [] =>
    have h1 : injectTable t = ⟨[⟨[nolockVar]⟩]⟩ := by
      unfold injectTable
      rw [ht]
    rw [h1]
    unfold injectTable
    dsimp only
    rw [if_pos hNL]
  | h0 :: rest =>
    by_cases hn : tableHasNolock t
    · have h1 : injectTable t = t := by
        unfold injectTable
        rw [ht]
        dsimp only
        rw [if_pos hn]
      rw [h1, h1]
    · have h1 : injectTable t = ⟨⟨h0.expressions ++ [nolockVar]⟩ :: rest⟩ := by
        unfold injectTable
        rw [ht]
        dsimp only
        rw [if_neg hn]
      have hnew : tableHasNolock ⟨⟨h0.expressions ++ [nolockVar]⟩ :: rest⟩ = true := by
        simp only [tableHasNolock, List.any_eq_true]
        exact ⟨⟨h0.expressions ++ [nolockVar]⟩, List.mem_cons_self _ _,
          nolockVar, List.mem_append_right _ (List.mem_singleton_self _), by decide⟩
      rw [h1]
      unfold injectTable
      dsimp only
      rw [if_pos hnew]

theorem inject_nolock_hints_idem (ts : List TableAst) :
    inject_nolock_hints (inject_nolock_hints ts) = inject_nolock_hints ts := by
  unfold inject_nolock_hints
  rw [List.map_map]
  exact List.map_congr_left fun t _ => injectTable_idem t

theorem apply_pagination_idem (q : ParsedQuery) (ps pg : Int) :
    apply_pagination (apply_pagination q ps pg) ps pg = apply_pagination q ps pg := by
  cases q with
  | notSelect => rfl
  | selectQ s =>
    by_cases h : (findOffset s || findFetch s) = true
    · simp [apply_pagination, h]
    · simp only [apply_pagination, h, if_neg, Bool.false_eq_true, if_false]
      simp [findOffset, findFetch]

theorem pyUpperChar_idem (c : Char) : pyUpperChar (pyUpperChar c) = pyUpperChar c := by
  have key : ∀ r, pyUpperChar c = r → pyUpperChar r = r := by
    intro r h
    unfold pyUpperChar at h
    split at h <;>
      first
        | (subst h; decide)
        | (subst h; unfold pyUpperChar; split <;> first | rfl | simp_all)
  exact key _ rfl

theorem pyUpperChar_paren (c : Char) (h : pyUpperChar c = ')') : c = ')' := by
  unfold pyUpperChar at h
  split at h <;> first | exact h | exact absurd h (by decide)

theorem mem_pyUpperL_fixed (l : List Char) (c : Char) (h : c ∈ pyUpperL l) :
    pyUpperChar c = c := by
  unfold pyUpperL at h
  obtain ⟨o, -, rfl⟩ := List.mem_map.1 h
  exact pyUpperChar_idem o

theorem pyUpperL_fixed_of (l : List Char) (h : ∀ c ∈ l, pyUpperChar c = c) :
    pyUpperL l = l := by
  unfold pyUpperL
  conv_rhs => rw [← List.map_id l]
  exact List.map_congr_left h

theorem dropTrail_concat (p : Char → Bool) (l : List Char) (x : Char) (h : p x = false) :
    dropTrail p (l ++ [x]) = l ++ [x] := by
  unfold dropTrail
  rw [List.reverse_append]
  simp only [List.reverse_cons, List.reverse_nil, List.nil_append, List.singleton_append]
  rw [List.dropWhile_cons_of_neg (by simp [h])]
  simp

theorem mem_dropTrail (p : Char → Bool) (l : List Char) (c : Char)
    (h : c ∈ dropTrail p l) : c ∈ l := by
  unfold dropTrail at h
  rw [List.mem_reverse] at h
  have h2 := (List.dropWhile_sublist (l := l.reverse) p).subset h
  simpa using h2

theorem mem_pyStripL (l : List Char) (c : Char) (h : c ∈ pyStripL l) : c ∈ l := by
  unfold pyStripL at h
  have h2 := mem_dropTrail _ _ _ h
  exact (List.dropWhile_sublist (l := l) pyIsWs).subset h2

theorem startsList_iff (n l : List Char) : startsList n l = true ↔ ∃ r, l = n ++ r := by
  induction n generalizing l with
  | nil =>
    simp only [startsList, List.nil_append]
    exact ⟨fun _ => ⟨l, rfl⟩, fun _ => trivial⟩
  | cons a as ih =>
    cases l with
    | nil =>
      simp only [startsList, List.cons_append]
      constructor
      · intro h; exact absurd h (by simp)
      · rintro ⟨r, h⟩; exact absurd h (by simp)
    | cons b bs =>
      simp only [startsList, Bool.and_eq_true, decide_eq_true_eq, ih, List.cons_append,
        List.cons.injEq]
      constructor
      · rintro ⟨rfl, r, rfl⟩; exact ⟨r, rfl, rfl⟩
      · rintro ⟨r, rfl, rfl⟩; exact ⟨rfl, r, rfl⟩

theorem hasSub_iff (n l : List Char) : hasSub n l = true ↔ ∃ a b, l = a ++ (n ++ b) := by
  induction l with
  | nil =>
    rw [hasSub, startsList_iff]
    constructor
    · rintro ⟨r, h⟩
      exact ⟨[], r, by simpa using h⟩
    · rintro ⟨a, b, h⟩
      rcases List.append_eq_nil.1 h.symm with ⟨rfl, h2⟩
      rcases List.append_eq_nil.1 h2 with ⟨rfl, rfl⟩
      exact ⟨[], by simp⟩
  | cons c t ih =>
    rw [hasSub, Bool.or_eq_true, startsList_iff, ih]
    constructor
    · rintro (⟨r, h⟩ | ⟨a, b, h⟩)
      · exact ⟨[], r, by simpa using h⟩
      · exact ⟨c :: a, b, by simp [h]⟩
    · rintro ⟨a, b, h⟩
      cases a with
      | nil => exact Or.inl ⟨b, by simpa using h⟩
      | cons a0 a' =>
        simp only [List.cons_append, List.cons.injEq] at h
        exact Or.inr ⟨a', b, h.2⟩

theorem hasSub_ext_left (n g l : List Char) (h : hasSub n l = true) :
    hasSub n (g ++ l) = true := by
  obtain ⟨a, b, rfl⟩ := (hasSub_iff n l).1 h
  exact (hasSub_iff _ _).2 ⟨g ++ a, b, by simp⟩

theorem hasSub_ext_right (n l g : List Char) (h : hasSub n l = true) :
    hasSub n (l ++ g) = true := by
  obtain ⟨a, b, rfl⟩ := (hasSub_iff n l).1 h
  exact (hasSub_iff _ _).2 ⟨a, b ++ g, by simp⟩

theorem hasSub_of_suffix (n l L : List Char) (h : hasSub n l = true) (hs : l <:+ L) :
    hasSub n L = true := by
  obtain ⟨g, rfl⟩ := hs
  exact hasSub_ext_left n g l h

theorem hasSub_upper (n l : List Char) (h : hasSub n l = true) :
    hasSub (pyUpperL n) (pyUpperL l) = true := by
  obtain ⟨a, b, rfl⟩ := (hasSub_iff n l).1 h
  refine (hasSub_iff _ _).2 ⟨pyUpperL a, pyUpperL b, ?_⟩
  simp [pyUpperL]

theorem hasSub_rev (n l : List Char) (h : hasSub n l = true) :
    hasSub n.reverse l.reverse = true := by
  obtain ⟨a, b, rfl⟩ := (hasSub_iff n l).1 h
  refine (hasSub_iff _ _).2 ⟨b.reverse, a.reverse, ?_⟩
  simp

theorem hasSub_dropWhile_keep (p : Char → Bool) (wh : Char) (wt l : List Char)
    (h : hasSub (wh :: wt) l = true) (hwh : p wh = false) :
    hasSub (wh :: wt) (l.dropWhile p) = true := by
  obtain ⟨a, b, hl⟩ := (hasSub_iff _ l).1 h
  subst hl
  rw [List.dropWhile_append]
  by_cases he : (a.dropWhile p).isEmpty
  · rw [if_pos he]
    rw [List.cons_append, List.dropWhile_cons_of_neg (by simp [hwh])]
    exact (hasSub_iff _ _).2 ⟨[], b, by simp⟩
  · rw [if_neg he]
    exact (hasSub_iff _ _).2 ⟨a.dropWhile p, b, rfl⟩

theorem hasSub_pyStripL (wh : Char) (wt l : List Char)
    (h : hasSub (wh :: wt) l = true) (hwh : pyIsWs wh = false)
    (vh : Char) (vt : List Char) (hv : (wh :: wt).reverse = vh :: vt)
    (hvw : pyIsWs vh = false) :
    hasSub (wh :: wt) (pyStripL l) = true := by
  unfold pyStripL dropTrail
  have h1 := hasSub_dropWhile_keep pyIsWs wh wt l h hwh
  have h2 := hasSub_rev _ _ h1
  rw [hv] at h2
  have h3 := hasSub_dropWhile_keep pyIsWs vh vt _ h2 hvw
  rw [← hv] at h3
  have h4 := hasSub_rev _ _ h3
  simpa using h4

theorem splitOnChar_ne_nil (sep : Char) (l : List Char) : splitOnChar sep l ≠ [] := by
  cases l with
  | nil => simp [splitOnChar]
  | cons c t =>
    unfold splitOnChar
    cases splitOnChar sep t with
    | nil => simp
    | cons h r =>
      by_cases hc : c = sep <;> simp [hc]

theorem splitOnChar_append_no_sep (sep : Char) (x y : List Char) (hx : sep ∉ x) :
    ∃ h r, splitOnChar sep y = h :: r ∧ splitOnChar sep (x ++ y) = (x ++ h) :: r := by
  induction x with
  | nil =>
    cases hsy : splitOnChar sep y with
    | nil => exact absurd hsy (splitOnChar_ne_nil sep y)
    | cons h r => exact ⟨h, r, rfl, by simpa using hsy⟩
  | cons a x' ih =>
    have ha : ¬(a = sep) := fun he => hx (he ▸ List.mem_cons_self ..)
    obtain ⟨h, r, hy, hxy⟩ := ih (fun hm => hx (List.mem_cons_of_mem _ hm))
    refine ⟨h, r, hy, ?_⟩
    show splitOnChar sep (a :: (x' ++ y)) = ((a :: x') ++ h) :: r
    unfold splitOnChar
    rw [hxy]
    simp [ha]

theorem mem_splitOnChar_subset (sep : Char) (l : List Char) (p : List Char) (c : Char)
    (hp : p ∈ splitOnChar sep l) (hc : c ∈ p) : c ∈ l := by
  induction l generalizing p with
  | nil =>
    simp only [splitOnChar, List.mem_singleton] at hp
    subst hp
    simp at hc
  | cons a t ih =>
    unfold splitOnChar at hp
    cases hst : splitOnChar sep t with
    | nil => exact absurd hst (splitOnChar_ne_nil sep t)
    | cons h r =>
      rw [hst] at hp
      dsimp only at hp
      by_cases ha : a = sep
      · rw [if_pos ha] at hp
        rcases List.mem_cons.1 hp with rfl | hp2
        · simp at hc
        · exact List.mem_cons_of_mem _ (ih _ (hst ▸ hp2) hc)
      · rw [if_neg ha] at hp
        rcases List.mem_cons.1 hp with rfl | hp2
        · rcases List.mem_cons.1 hc with rfl | hc2
          · exact List.mem_cons_self ..
          · exact List.mem_cons_of_mem _ (ih h (hst ▸ List.mem_cons_self ..) hc2)
        · exact List.mem_cons_of_mem _ (ih _ (hst ▸ List.mem_cons_of_mem _ hp2) hc)

theorem hasSub_cons_right (n : List Char) (c : Char) (t : List Char)
    (h : hasSub n t = true) : hasSub n (c :: t) = true := by
  simpa using hasSub_ext_left n [c] t h

theorem hasSub_piece (w b : List Char) (sep : Char) (hw : sep ∉ w) :
    ∀ a, ∃ p ∈ splitOnChar sep (a ++ (w ++ b)), hasSub w p = true := by
  intro a
  induction a with
  | nil =>
    obtain ⟨h, r, _, hxy⟩ := splitOnChar_append_no_sep sep w b hw
    refine ⟨w ++ h, ?_, ?_⟩
    · rw [List.nil_append, hxy]
      exact List.mem_cons_self ..
    · exact (hasSub_iff _ _).2 ⟨[], h, by simp⟩
  | cons a0 a' ih =>
    obtain ⟨p, hp, hsub⟩ := ih
    rw [List.cons_append]
    by_cases ha : a0 = sep
    · refine ⟨p, ?_, hsub⟩
      unfold splitOnChar
      cases hst : splitOnChar sep (a' ++ (w ++ b)) with
      | nil => exact absurd hst (splitOnChar_ne_nil _ _)
      | cons h r =>
        dsimp only
        rw [if_pos ha]
        exact List.mem_cons_of_mem _ (hst ▸ hp)
    · cases hst : splitOnChar sep (a' ++ (w ++ b)) with
      | nil => exact absurd hst (splitOnChar_ne_nil _ _)
      | cons h r =>
        rw [hst] at hp
        rcases List.mem_cons.1 hp with rfl | hp2
        · refine ⟨a0 :: p, ?_, hasSub_cons_right _ _ _ hsub⟩
          unfold splitOnChar
          rw [hst]
          dsimp only
          rw [if_neg ha]
          exact List.mem_cons_self ..
        · refine ⟨p, ?_, hsub⟩
          unfold splitOnChar
          rw [hst]
          dsimp only
          rw [if_neg ha]
          exact List.mem_cons_of_mem _ hp2

theorem hasSub_joinSep (w : List Char) (ps : List (List Char)) (p : List Char)
    (hp : p ∈ ps) (h : hasSub w p = true) : hasSub w (joinSep ps) = true := by
  induction ps generalizing p with
  | nil => simp at hp
  | cons p0 ps' ih =>
    cases ps' with
    | nil =>
      rw [List.mem_singleton] at hp
      subst hp
      exact h
    | cons p1 ps'' =>
      show hasSub w (p0 ++ ',' :: ' ' :: joinSep (p1 :: ps'')) = true
      rcases List.mem_cons.1 hp with rfl | hp2
      · exact hasSub_ext_right _ _ _ h
      · have h2 := ih _ hp2 h
        have h3 := hasSub_ext_left w (p0 ++ [',', ' ']) _ h2
        simpa using h3

theorem joinSep_no_paren (ps : List (List Char)) (h : ∀ p ∈ ps, ')' ∉ p) :
    ')' ∉ joinSep ps := by
  induction ps with
  | nil => simp [joinSep]
  | cons p0 ps' ih =>
    cases ps' with
    | nil => exact h p0 (List.mem_singleton_self _)
    | cons p1 ps'' =>
      show ')' ∉ p0 ++ ',' :: ' ' :: joinSep (p1 :: ps'')
      intro hm
      rcases List.mem_append.1 hm with hm1 | hm1
      · exact h p0 (List.mem_cons_self ..) hm1
      · rcases List.mem_cons.1 hm1 with he | hm2
        · exact absurd he (by decide)
        · rcases List.mem_cons.1 hm2 with he | hm3
          · exact absurd he (by decide)
          · exact ih (fun p hp => h p (List.mem_cons_of_mem _ hp)) hm3

theorem digitChar_no_paren (n : Nat) (h : n < 10) : Nat.digitChar n ≠ ')' := by
  interval_cases n <;> decide

theorem toDigitsCore_no_paren (f n : Nat) (acc : List Char) (hacc : ')' ∉ acc) :
    ')' ∉ Nat.toDigitsCore 10 f n acc := by
  induction f generalizing n acc with
  | zero => simpa [Nat.toDigitsCore] using hacc
  | succ f ih =>
    rw [Nat.toDigitsCore]
    by_cases h0 : n / 10 = 0
    · simp only [h0, if_pos rfl]
      intro hm
      rcases List.mem_cons.1 hm with he | hm2
      · exact digitChar_no_paren (n % 10) (Nat.mod_lt _ (by norm_num)) he.symm
      · exact hacc hm2
    · simp only [h0, if_neg h0]
      refine ih (n / 10) (Nat.digitChar (n % 10) :: acc) ?_
      intro hm
      rcases List.mem_cons.1 hm with he | hm2
      · exact digitChar_no_paren (n % 10) (Nat.mod_lt _ (by norm_num)) he.symm
      · exact hacc hm2

theorem repr_no_paren (n : Nat) : ')' ∉ (Nat.repr n).data := by
  show ')' ∉ (Nat.toDigits 10 n).asString.data
  have hd : (Nat.toDigits 10 n).asString.data = Nat.toDigits 10 n := rfl
  rw [hd]
  unfold Nat.toDigits
  exact toDigitsCore_no_paren _ _ _ (by simp)

theorem dropWhile_append_all (p : Char → Bool) (a l : List Char)
    (h : ∀ c ∈ a, p c = true) : (a ++ l).dropWhile p = l.dropWhile p := by
  induction a with
  | nil => rfl
  | cons x a' ih =>
    rw [List.cons_append, List.dropWhile_cons_of_pos (h x (List.mem_cons_self ..))]
    exact ih fun c hc => h c (List.mem_cons_of_mem _ hc)

theorem takeWhile_append_all (p : Char → Bool) (a l : List Char)
    (h : ∀ c ∈ a, p c = true) : (a ++ l).takeWhile p = a ++ l.takeWhile p := by
  induction a with
  | nil => rfl
  | cons x a' ih =>
    rw [List.cons_append, List.takeWhile_cons_of_pos (h x (List.mem_cons_self ..)),
      ih fun c hc => h c (List.mem_cons_of_mem _ hc), List.cons_append]

theorem rcTailOk_mem (t : List Char) (h : rcTailOk t = true) (c : Char) (hc : c ∈ t) :
    pyIsWs c = true ∨ c = ';' := by
  unfold rcTailOk at h
  rw [← List.takeWhile_append_dropWhile (p := pyIsWs) (l := t)] at hc
  rcases List.mem_append.1 hc with h1 | h1
  · exact Or.inl (List.mem_takeWhile_imp h1)
  · cases hd : t.dropWhile pyIsWs with
    | nil => rw [hd] at h1; simp at h1
    | cons x r =>
      rw [hd] at h h1
      by_cases hx : x = ';'
      · subst hx
        rcases List.mem_cons.1 h1 with rfl | h2
        · exact Or.inr rfl
        · rw [← List.takeWhile_append_dropWhile (p := pyIsWs) (l := r)] at h2
          rcases List.mem_append.1 h2 with h3 | h3
          · exact Or.inl (List.mem_takeWhile_imp h3)
          · rw [List.isEmpty_iff.1 h] at h3
            simp at h3
      · exfalso
        rcases List.mem_cons.1 h1 with rfl | h2
        · revert h
          split
          · intro h; simp_all
          · intro h; simp_all
          · intro h; exact absurd h (by simp)
        · revert h
          split
          · intro h; simp_all
          · intro h; simp_all
          · intro h; exact absurd h (by simp)

theorem rcTailOk_no_paren (t : List Char) (h : rcTailOk t = true) : ')' ∉ t := by
  intro hm
  rcases rcTailOk_mem t h ')' hm with h1 | h1
  · exact absurd h1 (by decide)
  · exact absurd h1 (by decide)

theorem ciKeyword_sound (e s r : List Char) (h : ciKeyword e s = some r) :
    ∃ k, s = k ++ r ∧ k.length = e.length := by
  induction e generalizing s with
  | nil =>
    simp only [ciKeyword, Option.some.injEq] at h
    exact ⟨[], by simp [h], rfl⟩
  | cons a as ih =>
    cases s with
    | nil => simp [ciKeyword] at h
    | cons c cs =>
      unfold ciKeyword at h
      by_cases hc : pyUpperChar c = a
      · rw [if_pos hc] at h
        obtain ⟨k, hk, hl⟩ := ih cs h
        exact ⟨c :: k, by simp [hk], by simp [hl]⟩
      · rw [if_neg hc] at h
        exact absurd h (by simp)

theorem rcMatchAt_sound (s content : List Char) (h : rcMatchAt s = some content) :
    ∃ kw ws t, s = kw ++ (ws ++ '(' :: (content ++ ')' :: t)) ∧ kw.length = 6 ∧
      (∀ c ∈ ws, pyIsWs c = true) ∧ rcTailOk t = true ∧ ')' ∉ content := by
  unfold rcMatchAt at h
  cases hciw : ciKeyword ['O','P','T','I','O','N'] s with
  | none => rw [hciw] at h; exact absurd h (by simp)
  | some r1 =>
    rw [hciw] at h
    dsimp only at h
    obtain ⟨kw, hskw, hlen⟩ := ciKeyword_sound _ _ _ hciw
    cases hdw : r1.dropWhile pyIsWs with
    | nil => rw [hdw] at h; exact absurd h (by simp)
    | cons x r3 =>
      rw [hdw] at h
      dsimp only at h
      by_cases hx : x = '('
      · rw [if_pos hx] at h
        subst hx
        cases hdp : r3.dropWhile (fun c => !(c == ')')) with
        | nil => rw [hdp] at h; exact absurd h (by simp)
        | cons y r4 =>
          rw [hdp] at h
          dsimp only at h
          by_cases hy : y = ')'
          · rw [if_pos hy] at h
            subst hy
            by_cases ht : rcTailOk r4
            · rw [if_pos ht] at h
              simp only [Option.some.injEq] at h
              subst h
              refine ⟨kw, r1.takeWhile pyIsWs, r4, ?_, hlen, ?_, ht, ?_⟩
              · rw [hskw]
                congr 1
                conv_lhs => rw [← List.takeWhile_append_dropWhile (p := pyIsWs) (l := r1)]
                rw [hdw]
                congr 1
                rw [List.cons_inj_right]
                conv_lhs =>
                  rw [← List.takeWhile_append_dropWhile (p := fun c => !(c == ')')) (l := r3)]
                rw [hdp]
              · exact fun c hc => List.mem_takeWhile_imp hc
              · intro hm
                have := List.mem_takeWhile_imp hm
                simp at this
            · rw [if_neg ht] at h
              exact absurd h (by simp)
          · rw [if_neg hy] at h
            exact absurd h (by simp)
      · rw [if_neg hx] at h
        exact absurd h (by simp)

theorem rcMatchAt_complete (cu : List Char) (h : ')' ∉ cu) :
    rcMatchAt (['O','P','T','I','O','N',' ','('] ++ (cu ++ [')'])) = some cu := by
  have hk : ciKeyword ['O','P','T','I','O','N'] (['O','P','T','I','O','N',' ','('] ++ (cu ++ [')'])) =
      some (' ' :: '(' :: (cu ++ [')'])) := rfl
  unfold rcMatchAt
  rw [hk]
  dsimp only
  have hdw : (' ' :: '(' :: (cu ++ [')'])).dropWhile pyIsWs = '(' :: (cu ++ [')']) := rfl
  rw [hdw]
  dsimp only
  rw [if_pos rfl]
  have hall : ∀ c ∈ cu, (fun c => !(c == ')')) c = true := by
    intro c hc
    simp only [Bool.not_eq_true']
    exact decide_eq_false fun he => h (he ▸ hc)
  have hdp : (cu ++ [')']).dropWhile (fun c => !(c == ')')) = [')'] := by
    rw [dropWhile_append_all _ _ _ hall]
    rfl
  rw [hdp]
  dsimp only
  rw [if_pos rfl]
  have htk : (cu ++ [')']).takeWhile (fun c => !(c == ')')) = cu := by
    rw [takeWhile_append_all _ _ _ hall]
    simp [List.takeWhile]
  rw [htk]
  rfl

theorem rcFindAux_sound (u : List Char) (prev : Option Char) (pre content : List Char)
    (h : rcFindAux prev u = some (pre, content)) :
    ∃ s, u = pre ++ s ∧ rcMatchAt s = some content := by
  induction u generalizing prev pre with
  | nil => simp [rcFindAux] at h
  | cons c t ih =>
    unfold rcFindAux at h
    cases hm : (if rcBoundary prev then rcMatchAt (c :: t) else none) with
    | some c0 =>
      rw [hm] at h
      simp only [Option.some.injEq, Prod.mk.injEq] at h
      refine ⟨c :: t, by simp [← h.1], ?_⟩
      by_cases hb : rcBoundary prev
      · rw [if_pos hb] at hm
        rw [hm, h.2]
      · rw [if_neg hb] at hm
        exact absurd hm (by simp)
    | none =>
      rw [hm] at h
      cases hf : rcFindAux (some c) t with
      | none => rw [hf] at h; exact absurd h (by simp)
      | some pc =>
        rw [hf] at h
        obtain ⟨p0, c0⟩ := pc
        simp only [Option.some.injEq, Prod.mk.injEq] at h
        obtain ⟨s, hs, hmt⟩ := ih (some c) p0 (by rw [hf, h.2])
        exact ⟨s, by rw [← h.1, List.cons_append, hs], hmt⟩

theorem rcFindAux_isSome (a s u : List Char) (prev : Option Char) (c0 : List Char)
    (hu : u = a ++ s) (hm : rcMatchAt s = some c0)
    (hb : rcBoundary (prevOf prev a) = true) :
    ∃ pc, rcFindAux prev u = some pc := by
  induction a generalizing prev u with
  | nil =>
    rw [List.nil_append] at hu
    subst hu
    cases u with
    | nil => simp [rcMatchAt, ciKeyword] at hm
    | cons c t =>
      unfold rcFindAux
      have hbp : rcBoundary prev = true := hb
      rw [if_pos hbp, hm]
      exact ⟨([], c0), rfl⟩
  | cons x a' ih =>
    rw [List.cons_append] at hu
    subst hu
    unfold rcFindAux
    cases hm1 : (if rcBoundary prev then rcMatchAt (x :: (a' ++ s)) else none) with
    | some c1 => exact ⟨([], c1), rfl⟩
    | none =>
      have hb' : rcBoundary (prevOf (some x) a') = true := hb
      obtain ⟨pc, hpc⟩ := ih _ _ rfl hb'
      rw [hpc]
      obtain ⟨p1, c1⟩ := pc
      exact ⟨(x :: p1, c1), rfl⟩

theorem rcFindAux_leftmost (u : List Char) (prev : Option Char) (pre content : List Char)
    (h : rcFindAux prev u = some (pre, content)) (a s : List Char) (c0 : List Char)
    (hu : u = a ++ s) (hm : rcMatchAt s = some c0)
    (hb : rcBoundary (prevOf prev a) = true) :
    pre.length ≤ a.length := by
  induction a generalizing prev u pre with
  | nil =>
    rw [List.nil_append] at hu
    subst hu
    cases u with
    | nil => simp [rcMatchAt, ciKeyword] at hm
    | cons c t =>
      unfold rcFindAux at h
      have hbp : rcBoundary prev = true := hb
      rw [if_pos hbp, hm] at h
      simp only [Option.some.injEq, Prod.mk.injEq] at h
      simp [← h.1]
  | cons x a' ih =>
    rw [List.cons_append] at hu
    subst hu
    unfold rcFindAux at h
    cases hm1 : (if rcBoundary prev then rcMatchAt (x :: (a' ++ s)) else none) with
    | some c1 =>
      rw [hm1] at h
      simp only [Option.some.injEq, Prod.mk.injEq] at h
      simp [← h.1]
    | none =>
      rw [hm1] at h
      cases hf : rcFindAux (some x) (a' ++ s) with
      | none => rw [hf] at h; exact absurd h (by simp)
      | some pc =>
        rw [hf] at h
        obtain ⟨p0, c1⟩ := pc
        simp only [Option.some.injEq, Prod.mk.injEq] at h
        have hb' : rcBoundary (prevOf (some x) a') = true := hb
        have hih := ih _ _ _ (by rw [hf, h.2]) rfl hb'
        rw [← h.1]
        simpa using Nat.succ_le_succ hih

theorem prevOf_concat (p : Option Char) (a : List Char) (x : Char) :
    prevOf p (a ++ [x]) = some x := by
  induction a generalizing p with
  | nil => rfl
  | cons c a' ih => exact ih (some c)

theorem suffix_of_suffix_le (l1 l2 l : List Char) (h1 : l1 <:+ l) (h2 : l2 <:+ l)
    (hl : l1.length ≤ l2.length) : l1 <:+ l2 := by
  rw [← List.reverse_prefix] at h1 h2 ⊢
  exact List.prefix_of_prefix_length_le h1 h2 (by simpa)

theorem concat_paren_eq (P t Q : List Char) (hp : ')' ∉ t)
    (he : P ++ ')' :: t = Q ++ [')']) : t = [] ∧ P = Q := by
  rcases List.eq_nil_or_concat t with rfl | ⟨t0, x, ht⟩
  · exact ⟨rfl, List.append_cancel_right he⟩
  · rw [List.concat_eq_append] at ht
    subst ht
    exfalso
    have he2 : (P ++ ')' :: t0) ++ [x] = Q ++ [')'] := by
      simpa using he
    have h3 : ((P ++ ')' :: t0) ++ [x]).getLast? = some x := List.getLast?_concat _
    rw [he2] at h3
    have h4 : (Q ++ [')']).getLast? = some ')' := List.getLast?_concat _
    rw [h4] at h3
    have hx : x = ')' := by
      have := Option.some.inj h3
      exact this.symm
    exact hp (hx ▸ List.mem_append_right _ (List.mem_singleton_self _))

theorem rc_paren_clash (pre kw ws e V : List Char) (hk : kw.length = 6)
    (hws : ∀ c ∈ ws, pyIsWs c = true) (he : e ≠ [])
    (heq : pre ++ (kw ++ (ws ++ ['('])) = (V ++ ['(']) ++ e)
    (hlen : pre.length + 6 ≤ V.length) : False := by
  have hL := congrArg List.length heq
  simp only [List.length_append, List.length_cons, List.length_nil, hk] at hL
  have h1 : (ws ++ ['(']) <:+ pre ++ (kw ++ (ws ++ ['('])) := ⟨pre ++ kw, by simp⟩
  have h2 : ('(' :: e) <:+ (V ++ ['(']) ++ e := ⟨V, by simp⟩
  rw [← heq] at h2
  have h3 := suffix_of_suffix_le ('(' :: e) (ws ++ ['(']) _ h2 h1
    (by simp only [List.length_cons, List.length_append, List.length_nil]; omega)
  obtain ⟨g, hg⟩ := h3
  rcases List.eq_nil_or_concat e with h0 | ⟨e0, x, he0⟩
  · exact he h0
  rw [List.concat_eq_append] at he0
  subst he0
  have hg2 : (g ++ '(' :: e0) ++ [x] = ws ++ ['('] := by simpa using hg
  have hws2 : g ++ '(' :: e0 = ws := by
    have hdl := congrArg List.dropLast hg2
    rw [List.dropLast_concat, List.dropLast_concat] at hdl
    exact hdl
  have hparen : pyIsWs '(' = true :=
    hws '(' (hws2 ▸ List.mem_append_right _ (List.mem_cons_self ..))
  exact absurd hparen (by decide)

theorem stripUpper_shape (p c : List Char) :
    ∃ W, pyStripL (pyUpperL (p ++ ([' ','O','P','T','I','O','N',' ','('] ++ (c ++ [')'])))) =
      W ++ (['O','P','T','I','O','N',' ','('] ++ (pyUpperL c ++ [')'])) ∧
      rcBoundary (prevOf none W) = true := by
  have hmap : pyUpperL (p ++ ([' ','O','P','T','I','O','N',' ','('] ++ (c ++ [')']))) =
      pyUpperL p ++ ([' ','O','P','T','I','O','N',' ','('] ++ (pyUpperL c ++ [')'])) := by
    unfold pyUpperL
    simp only [List.map_append, List.map_cons, List.map_nil]
    rfl
  unfold pyStripL
  rw [hmap, List.dropWhile_append]
  by_cases hem : ((pyUpperL p).dropWhile pyIsWs).isEmpty
  · rw [if_pos hem]
    rw [show ([' ','O','P','T','I','O','N',' ','('] ++ (pyUpperL c ++ [')'])) =
      ' ' :: (['O','P','T','I','O','N',' ','('] ++ (pyUpperL c ++ [')'])) from rfl]
    rw [List.dropWhile_cons_of_pos (by decide)]
    rw [show (['O','P','T','I','O','N',' ','('] ++ (pyUpperL c ++ [')'])) =
      'O' :: (['P','T','I','O','N',' ','('] ++ (pyUpperL c ++ [')'])) from rfl]
    rw [List.dropWhile_cons_of_neg (by decide)]
    refine ⟨[], ?_, by decide⟩
    rw [show ('O' :: (['P','T','I','O','N',' ','('] ++ (pyUpperL c ++ [')']))) =
      (['O','P','T','I','O','N',' ','('] ++ pyUpperL c) ++ [')'] by simp]
    rw [dropTrail_concat _ _ _ (by decide)]
    simp
  · rw [if_neg hem]
    refine ⟨(pyUpperL p).dropWhile pyIsWs ++ [' '], ?_, ?_⟩
    · rw [show (pyUpperL p).dropWhile pyIsWs ++ ([' ','O','P','T','I','O','N',' ','('] ++ (pyUpperL c ++ [')'])) =
        (((pyUpperL p).dropWhile pyIsWs ++ [' ']) ++ (['O','P','T','I','O','N',' ','('] ++ pyUpperL c)) ++ [')'] by simp]
      rw [dropTrail_concat _ _ _ (by decide)]
      simp
    · rw [prevOf_concat]
      decide

theorem rc_fix_core (y p c : List Char)
    (hy : y = p ++ ([' ','O','P','T','I','O','N',' ','('] ++ (c ++ [')'])))
    (hc : ')' ∉ c) :
    ∃ pre content, rcFindAux none (pyStripL (pyUpperL y)) = some (pre, content) ∧
      ')' ∉ content ∧ (pyUpperL c) <:+ content ∧
      (∀ ch ∈ content, ch ∈ pyStripL (pyUpperL y)) := by
  subst hy
  obtain ⟨W, hU, hbW⟩ := stripUpper_shape p c
  have hcu : ')' ∉ pyUpperL c := by
    intro hm
    obtain ⟨o, ho, hoe⟩ := List.mem_map.1 hm
    exact hc (pyUpperChar_paren o hoe ▸ ho)
  have hcomp := rcMatchAt_complete (pyUpperL c) hcu
  obtain ⟨⟨pre, content⟩, hfind⟩ :=
    rcFindAux_isSome W (['O','P','T','I','O','N',' ','('] ++ (pyUpperL c ++ [')'])) _
      none (pyUpperL c) hU hcomp hbW
  obtain ⟨s, hus, hmt⟩ := rcFindAux_sound _ _ _ _ hfind
  obtain ⟨kw, ws, t, hs, hkw, hws, ht, hcont⟩ := rcMatchAt_sound _ _ hmt
  have hmemU : ∀ ch ∈ content, ch ∈ pyStripL (pyUpperL
      (p ++ ([' ','O','P','T','I','O','N',' ','('] ++ (c ++ [')'])))) := by
    intro ch hch
    rw [hus, hs]
    exact List.mem_append_right _ (List.mem_append_right _ (List.mem_append_right _
      (List.mem_cons_of_mem _ (List.mem_append_left _ hch))))

  have hlm := rcFindAux_leftmost _ _ _ _ hfind W _ (pyUpperL c) hU hcomp hbW
  have hXt : pyStripL (pyUpperL (p ++ ([' ','O','P','T','I','O','N',' ','('] ++ (c ++ [')'])))) =
      (pre ++ (kw ++ (ws ++ ('(' :: content)))) ++ ')' :: t := by
    rw [hus, hs]
    simp [List.append_assoc]
  have hQ : pyStripL (pyUpperL (p ++ ([' ','O','P','T','I','O','N',' ','('] ++ (c ++ [')'])))) =
      (W ++ (['O','P','T','I','O','N',' ','('] ++ pyUpperL c)) ++ [')'] := by
    rw [hU]
    simp [List.append_assoc]
  obtain ⟨htnil, hXY⟩ := concat_paren_eq _ _ _ (rcTailOk_no_paren t ht) (hXt.symm.trans hQ)
  subst htnil
  have hsc : content <:+ (W ++ (['O','P','T','I','O','N',' ','('] ++ pyUpperL c)) := by
    refine ⟨pre ++ (kw ++ (ws ++ ['('])), ?_⟩
    rw [← hXY]
    simp [List.append_assoc]
  have hcuS : pyUpperL c <:+ (W ++ (['O','P','T','I','O','N',' ','('] ++ pyUpperL c)) :=
    ⟨W ++ ['O','P','T','I','O','N',' ','('], by simp [List.append_assoc]⟩
  by_cases hlc : (pyUpperL c).length ≤ content.length
  · exact ⟨pre, content, hfind, hcont,
      suffix_of_suffix_le _ _ _ hcuS hsc hlc, hmemU⟩
  · exfalso
    have h4 := suffix_of_suffix_le content (pyUpperL c) _ hsc hcuS (by omega)
    obtain ⟨e, heC⟩ := h4
    have hene : e ≠ [] := by
      intro h0
      subst h0
      rw [List.nil_append] at heC
      exact hlc (le_of_eq (by rw [heC]))
    have hcancel : pre ++ (kw ++ (ws ++ ['('])) =
        ((W ++ ['O','P','T','I','O','N',' ']) ++ ['(']) ++ e := by
      have h5 : (pre ++ (kw ++ (ws ++ ['(']))) ++ content =
          (((W ++ ['O','P','T','I','O','N',' ']) ++ ['(']) ++ e) ++ content := by
        rw [← heC] at hXY
        calc (pre ++ (kw ++ (ws ++ ['(']))) ++ content
            = pre ++ (kw ++ (ws ++ ('(' :: content))) := by simp [List.append_assoc]
          _ = W ++ (['O','P','T','I','O','N',' ','('] ++ (e ++ content)) := hXY
          _ = (((W ++ ['O','P','T','I','O','N',' ']) ++ ['(']) ++ e) ++ content := by
              simp [List.append_assoc]
      exact List.append_cancel_right h5
    refine rc_paren_clash pre kw ws e (W ++ ['O','P','T','I','O','N',' ']) hkw hws hene hcancel ?_
    simp only [List.length_append, List.length_cons, List.length_nil]
    omega

theorem rc_fix (y env : String) (d g : Nat) (p c : List Char)
    (hy : y.data = p ++ ([' ','O','P','T','I','O','N',' ','('] ++ (c ++ [')'])))
    (hc : ')' ∉ c) (hm1 : hasSub ("MAXDOP".data) c = true)
    (hm2 : hasSub ("MAX_GRANT_PERCENT".data) c = true) :
    inject_resource_hints y env d g = y := by
  obtain ⟨pre, content, hfind, hcp, hsuf, hmemU⟩ := rc_fix_core y.data p c hy hc
  have hgetM : hasSub ("MAXDOP".data) content = true := by
    have h1 := hasSub_upper _ _ hm1
    rw [show pyUpperL ("MAXDOP".data) = "MAXDOP".data from by decide] at h1
    exact hasSub_of_suffix _ _ _ h1 hsuf
  have hgetG : hasSub ("MAX_GRANT_PERCENT".data) content = true := by
    have h1 := hasSub_upper _ _ hm2
    rw [show pyUpperL ("MAX_GRANT_PERCENT".data) = "MAX_GRANT_PERCENT".data from by decide] at h1
    exact hasSub_of_suffix _ _ _ h1 hsuf
  have hfix : ∀ ch ∈ content, pyUpperChar ch = ch := by
    intro ch hch
    exact mem_pyUpperL_fixed _ _ (mem_pyStripL _ _ (hmemU ch hch))
  have hflagM : (rcExisting content).any
      (fun h => hasSub ("MAXDOP".data) (pyUpperL h)) = true := by
    obtain ⟨a, b, hab⟩ := (hasSub_iff _ _).1 hgetM
    obtain ⟨piece, hpmem, hpsub⟩ := hab ▸ hasSub_piece ("MAXDOP".data) b ',' (by decide) a
    have hstrip : hasSub ("MAXDOP".data) (pyStripL piece) = true := by
      refine hasSub_pyStripL 'M' ['A','X','D','O','P'] piece hpsub (by decide)
        'P' ['O','D','X','A','M'] (by decide) (by decide)
    have hupper : pyUpperL (pyStripL piece) = pyStripL piece := by
      refine pyUpperL_fixed_of _ fun ch hch => ?_
      exact hfix ch (mem_splitOnChar_subset ',' content piece ch hpmem (mem_pyStripL _ _ hch))
    refine List.any_eq_true.2 ⟨pyStripL piece, List.mem_map.2 ⟨piece, hpmem, rfl⟩, ?_⟩
    rw [hupper]
    exact hstrip
  have hflagG : (rcExisting content).any
      (fun h => hasSub ("MAX_GRANT_PERCENT".data) (pyUpperL h)) = true := by
    obtain ⟨a, b, hab⟩ := (hasSub_iff _ _).1 hgetG
    obtain ⟨piece, hpmem, hpsub⟩ :=
      hab ▸ hasSub_piece ("MAX_GRANT_PERCENT".data) b ',' (by decide) a
    have hstrip : hasSub ("MAX_GRANT_PERCENT".data) (pyStripL piece) = true := by
      refine hasSub_pyStripL 'M' "AX_GRANT_PERCENT".data piece hpsub (by decide)
        'T' "NECREP_TNARG_XAM".data (by decide) (by decide)
    have hupper : pyUpperL (pyStripL piece) = pyStripL piece := by
      refine pyUpperL_fixed_of _ fun ch hch => ?_
      exact hfix ch (mem_splitOnChar_subset ',' content piece ch hpmem (mem_pyStripL _ _ hch))
    refine List.any_eq_true.2 ⟨pyStripL piece, List.mem_map.2 ⟨piece, hpmem, rfl⟩, ?_⟩
    rw [hupper]
    exact hstrip
  have hnil : rcNewHints (rcExisting content) d g = [] := by
    unfold rcNewHints
    rw [if_pos hflagM, if_pos hflagG]
    rfl
  unfold inject_resource_hints
  rw [hfind]
  dsimp only
  rw [hnil]

theorem rcNewHints_no_paren (ex : List (List Char)) (d g : Nat) (p : List Char)
    (hp : p ∈ rcNewHints ex d g) : ')' ∉ p := by
  unfold rcNewHints at hp
  rcases List.mem_append.1 hp with h1 | h1
  · by_cases hf : ex.any (fun h => hasSub ("MAXDOP".data) (pyUpperL h)) = true
    · rw [if_pos hf] at h1
      simp at h1
    · rw [if_neg hf] at h1
      rw [List.mem_singleton] at h1
      subst h1
      intro hm
      rcases List.mem_append.1 hm with h2 | h2
      · exact absurd h2 (by decide)
      · exact repr_no_paren d h2
  · by_cases hf : ex.any (fun h => hasSub ("MAX_GRANT_PERCENT".data) (pyUpperL h)) = true
    · rw [if_pos hf] at h1
      simp at h1
    · rw [if_neg hf] at h1
      rw [List.mem_singleton] at h1
      subst h1
      intro hm
      rcases List.mem_append.1 hm with h2 | h2
      · exact absurd h2 (by decide)
      · exact repr_no_paren g h2

theorem rcNewHints_maxdop (ex : List (List Char)) (d g : Nat) :
    ex.any (fun h => hasSub ("MAXDOP".data) (pyUpperL h)) = true ∨
    ("MAXDOP ".data ++ (Nat.repr d).data) ∈ rcNewHints ex d g := by
  by_cases hf : ex.any (fun h => hasSub ("MAXDOP".data) (pyUpperL h)) = true
  · exact Or.inl hf
  · right
    unfold rcNewHints
    rw [if_neg hf]
    exact List.mem_append_left _ (List.mem_singleton_self _)

theorem rcNewHints_mgp (ex : List (List Char)) (d g : Nat) :
    ex.any (fun h => hasSub ("MAX_GRANT_PERCENT".data) (pyUpperL h)) = true ∨
    ("MAX_GRANT_PERCENT = ".data ++ (Nat.repr g).data) ∈ rcNewHints ex d g := by
  by_cases hf : ex.any (fun h => hasSub ("MAX_GRANT_PERCENT".data) (pyUpperL h)) = true
  · exact Or.inl hf
  · right
    unfold rcNewHints
    rw [if_neg hf]
    exact List.mem_append_right _ (List.mem_singleton_self _)

theorem rc_shape (q env : String) (d g : Nat) :
    inject_resource_hints q env d g = q ∨
    ∃ p c, (inject_resource_hints q env d g).data =
        p ++ ([' ','O','P','T','I','O','N',' ','('] ++ (c ++ [')'])) ∧
      ')' ∉ c ∧ hasSub ("MAXDOP".data) c = true ∧
      hasSub ("MAX_GRANT_PERCENT".data) c = true := by
  unfold inject_resource_hints
  cases hfind : rcFindAux none (pyStripL (pyUpperL q.data)) with
  | none =>
    right
    have hnn : rcNewHints [] d g =
        ["MAXDOP ".data ++ (Nat.repr d).data,
         "MAX_GRANT_PERCENT = ".data ++ (Nat.repr g).data] := rfl
    refine ⟨pyStripL (pyRstripSemi q).data, joinSep (rcNewHints [] d g), ?_, ?_, ?_, ?_⟩
    · rfl
    · exact joinSep_no_paren _ fun pc hpc => rcNewHints_no_paren [] d g pc hpc
    · rw [hnn]
      show hasSub ("MAXDOP".data)
        (("MAXDOP ".data ++ (Nat.repr d).data) ++ ',' :: ' ' ::
          ("MAX_GRANT_PERCENT = ".data ++ (Nat.repr g).data)) = true
      refine (hasSub_iff _ _).2 ⟨[], ' ' :: ((Nat.repr d).data ++ ',' :: ' ' ::
        ("MAX_GRANT_PERCENT = ".data ++ (Nat.repr g).data)), ?_⟩
      simp
    · rw [hnn]
      show hasSub ("MAX_GRANT_PERCENT".data)
        (("MAXDOP ".data ++ (Nat.repr d).data) ++ ',' :: ' ' ::
          ("MAX_GRANT_PERCENT = ".data ++ (Nat.repr g).data)) = true
      refine (hasSub_iff _ _).2 ⟨("MAXDOP ".data ++ (Nat.repr d).data) ++ [',', ' '],
        ' ' :: '=' :: ' ' :: (Nat.repr g).data, ?_⟩
      simp
  | some pc =>
    obtain ⟨pre0, content⟩ := pc
    dsimp only
    obtain ⟨s, hus, hmt⟩ := rcFindAux_sound _ _ _ _ hfind
    obtain ⟨kw, ws, t, hs, hkw, hws, ht, hcont⟩ := rcMatchAt_sound _ _ hmt
    have hmemU : ∀ ch ∈ content, ch ∈ pyStripL (pyUpperL q.data) := by
      intro ch hch
      rw [hus, hs]
      exact List.mem_append_right _ (List.mem_append_right _ (List.mem_append_right _
        (List.mem_cons_of_mem _ (List.mem_append_left _ hch))))
    have hfix : ∀ ch ∈ content, pyUpperChar ch = ch := by
      intro ch hch
      exact mem_pyUpperL_fixed _ _ (mem_pyStripL _ _ (hmemU ch hch))
    have hexfix : ∀ hp ∈ rcExisting content, pyUpperL hp = hp := by
      intro hp hpm
      obtain ⟨piece, hpiece, rfl⟩ := List.mem_map.1 hpm
      refine pyUpperL_fixed_of _ fun ch hch => ?_
      exact hfix ch (mem_splitOnChar_subset ',' content piece ch hpiece (mem_pyStripL _ _ hch))
    cases hnew : rcNewHints (rcExisting content) d g with
    | nil => exact Or.inl rfl
    | cons h1 t1 =>
      right
      refine ⟨rcQwo (pyStripL (pyRstripSemi q).data),
        joinSep (rcExisting content ++ h1 :: t1), rfl, ?_, ?_, ?_⟩
      · refine joinSep_no_paren _ fun pc2 hpc2 => ?_
        rcases List.mem_append.1 hpc2 with hin | hin
        · intro hm
          obtain ⟨piece, hpiece, rfl⟩ := List.mem_map.1 hin
          exact hcont (mem_splitOnChar_subset ',' content piece ')' hpiece
            (mem_pyStripL _ _ hm))
        · exact rcNewHints_no_paren _ d g pc2 (hnew ▸ hin)
      · rcases rcNewHints_maxdop (rcExisting content) d g with hf | hf
        · obtain ⟨hp, hpmem, hsub⟩ := List.any_eq_true.1 hf
          rw [hexfix hp hpmem] at hsub
          exact hasSub_joinSep _ _ hp (List.mem_append_left _ hpmem) hsub
        · rw [hnew] at hf
          refine hasSub_joinSep _ _ _ (List.mem_append_right _ hf) ?_
          refine (hasSub_iff _ _).2 ⟨[], ' ' :: (Nat.repr d).data, ?_⟩
          simp
      · rcases rcNewHints_mgp (rcExisting content) d g with hf | hf
        · obtain ⟨hp, hpmem, hsub⟩ := List.any_eq_true.1 hf
          rw [hexfix hp hpmem] at hsub
          exact hasSub_joinSep _ _ hp (List.mem_append_left _ hpmem) hsub
        · rw [hnew] at hf
          refine hasSub_joinSep _ _ _ (List.mem_append_right _ hf) ?_
          refine (hasSub_iff _ _).2 ⟨[], ' ' :: '=' :: ' ' :: (Nat.repr g).data, ?_⟩
          simp

theorem inject_resource_hints_idem (q env env2 : String) (d g : Nat) :
    inject_resource_hints (inject_resource_hints q env d g) env2 d g =
      inject_resource_hints q env d g := by
  rcases rc_shape q env d g with heq | ⟨p, c, hdata, hc, h1, h2⟩
  · have h0 : inject_resource_hints q env2 d g = inject_resource_hints q env d g := rfl
    rw [heq, h0, heq]
  · exact rc_fix _ env2 d g p c hdata hc h1 h2

/-- C7 — each of the three SQL rewriters is idempotent: re-running the
NOLOCK hint injector never adds a second NOLOCK hint to a table, re-running
`inject_resource_hints` on its own output returns that output unchanged
(string-for-string), and re-running `_apply_pagination` never adds a second
OFFSET/FETCH clause. -/
theorem claim_C7_rewriter_idempotence :
    (∀ ts : List TableAst,
      inject_nolock_hints (inject_nolock_hints ts) = inject_nolock_hints ts) ∧
    (∀ (q env env2 : String) (d g : Nat),
      inject_resource_hints (inject_resource_hints q env d g) env2 d g =
        inject_resource_hints q env d g) ∧
    (∀ (q : ParsedQuery) (ps pg : Int),
      apply_pagination (apply_pagination q ps pg) ps pg = apply_pagination q ps pg) :=
  ⟨inject_nolock_hints_idem, inject_resource_hints_idem, apply_pagination_idem⟩

end McpSql
